import Mathlib

/-!
The vox_nav receding-horizon tracking controller.

A shallow embedding of `botanbot_control`'s MPC wrapper
(`mpc_controller_wrapper.cpp`) and of the optimisation problem built in
`mpc_controller.cpp`, with the properties of the design document proved or
refuted against it.

Conventions of the embedding:

* C++ `double` values of the wrapper are exact rationals (`ℚ`); rounding,
  infinities and NaN are outside the model.
* The constraint set handed to the solver is a predicate over real-valued
  assignments of the decision variables.
* `std::vector::operator[]` outside the vector is undefined behaviour in the
  source; the model stops there with `ReadError.outOfBounds`.
-/

namespace VoxNav

/-! ## Messages -/

/-- The `geometry_msgs::msg::Point` message. -/
structure Point where
  x : ℚ
  y : ℚ
  z : ℚ
deriving DecidableEq, Repr

/-- The `geometry_msgs::msg::Quaternion` message. -/
structure Quaternion where
  x : ℚ
  y : ℚ
  z : ℚ
  w : ℚ
deriving DecidableEq, Repr

/-- The `geometry_msgs::msg::Pose` message. -/
structure Pose where
  position : Point
  orientation : Quaternion
deriving DecidableEq, Repr

/-- The `geometry_msgs::msg::PoseStamped` message (the header is never read). -/
structure PoseStamped where
  pose : Pose
deriving DecidableEq, Repr

/-- The `nav_msgs::msg::Path` message. -/
structure Path where
  poses : List PoseStamped
deriving DecidableEq, Repr

/-- The linear-x and angular-z channels of `geometry_msgs::msg::Twist`, the
only two the wrapper writes. -/
structure Twist where
  linear_x : ℚ
  angular_z : ℚ
deriving DecidableEq, Repr

/-- A default-constructed `PoseStamped`: zero position, identity rotation. -/
def PoseStamped.default : PoseStamped :=
  ⟨⟨⟨0, 0, 0⟩, ⟨0, 0, 0, 1⟩⟩⟩

/-- A pose at planar position `(x, y)` with identity rotation. -/
def PoseStamped.atXY (x y : ℚ) : PoseStamped :=
  ⟨⟨⟨x, y, 0⟩, ⟨0, 0, 0, 1⟩⟩⟩

/-! ## Nearest waypoint (`MPCWrapper::calculate_nearest_state_index`) -/

/-- The radicand of `curr_distance`:
`pow(poses[i].x - pose.x, 2) + pow(poses[i].y - pose.y, 2)`. -/
def sq_distance (waypoint curr_robot_pose : PoseStamped) : ℚ :=
  (waypoint.pose.position.x - curr_robot_pose.pose.position.x) ^ 2 +
    (waypoint.pose.position.y - curr_robot_pose.pose.position.y) ^ 2

/-- The test `curr_distance < closest_state_distance` where
`curr_distance = sqrt r` and `closest_state_distance` is an `int`:
`sqrt r < c` holds exactly when `c` is positive and `r < c * c`. -/
def sqrt_lt_int (r : ℚ) (c : Int) : Bool :=
  decide (0 < c ∧ r < (c : ℚ) ^ 2)

/-- The assignment `closest_state_distance = curr_distance` stores a `double`
into an `int`: the value `sqrt r` is truncated to its integer part. -/
def sqrt_to_int (r : ℚ) : Int :=
  (Nat.sqrt ⌊r⌋₊ : Nat)

/-- The body of the `for` loop of `calculate_nearest_state_index`, run over the
poses left to visit; `i` is the loop counter and the pair is
`(closest_state_index, closest_state_distance)`. -/
def nearest_loop (curr_robot_pose : PoseStamped) :
    List PoseStamped → Int → Int × Int → Int × Int
  | [], _, st => st
  | wp :: rest, i, (closest_state_index, closest_state_distance) =>
    let r := sq_distance wp curr_robot_pose
    if sqrt_lt_int r closest_state_distance then
      nearest_loop curr_robot_pose rest (i + 1) (i, sqrt_to_int r)
    else
      nearest_loop curr_robot_pose rest (i + 1)
        (closest_state_index, closest_state_distance)

/-- The function `MPCWrapper::calculate_nearest_state_index`: the index starts
at `-1` and the `int` distance at `10000`. -/
def calculate_nearest_state_index (reference_traj : Path)
    (curr_robot_pose : PoseStamped) : Int :=
  (nearest_loop curr_robot_pose reference_traj.poses 0 (-1, 10000)).1

/-! ## Reference interpolation (`MPCWrapper::intrpolateTraj`) -/

/-- A read `poses[index]` outside the vector: undefined behaviour in the source,
where no check, exception or status value stands for it. -/
inductive ReadError where
  | outOfBounds (index : Int)
deriving DecidableEq, Repr

/-- The read `ref_traj.poses[index]` with an `int` index. -/
def pose_at (ref_traj : Path) (index : Int) : Except ReadError PoseStamped :=
  if 0 ≤ index then
    match ref_traj.poses.get? index.toNat with
    | some p => Except.ok p
    | none => Except.error (ReadError.outOfBounds index)
  else
    Except.error (ReadError.outOfBounds index)

/-- The constant `kTRAJHORIZON` of `intrpolateTraj`. -/
def kTRAJHORIZON : Nat := 10

/-- The constant `kTRAJDT` of `intrpolateTraj`. -/
def kTRAJDT : ℚ := 3 / 10

/-- The constant `kTARGETSPEED` of `intrpolateTraj`. -/
def kTARGETSPEED : ℚ := 1

/-- The `for` loop of `intrpolateTraj`: `todo` iterations are left, `i` is the
loop counter, and the three lists are `interpolated_x_ref`,
`interpolated_y_ref` and `interpolated_psi_ref`. The yaw extraction
`tf2::Matrix3x3::getRPY` is the parameter `yaw_of`. -/
def interpolate_loop (yaw_of : Quaternion → ℚ) (ref_traj : Path)
    (nearsest_taj_state_index : Int) :
    Nat → Nat → List ℚ × List ℚ × List ℚ →
      Except ReadError (List ℚ × List ℚ × List ℚ)
  | 0, _, acc => Except.ok acc
  | todo + 1, i, (xs, ys, psis) =>
    match pose_at ref_traj nearsest_taj_state_index with
    | Except.error e => Except.error e
    | Except.ok anchor =>
      match pose_at ref_traj (i : Int) with
      | Except.error e => Except.error e
      | Except.ok waypoint =>
        interpolate_loop yaw_of ref_traj nearsest_taj_state_index todo (i + 1)
          (xs ++ [anchor.pose.position.x + kTRAJDT * (i : ℚ)],
           ys ++ [anchor.pose.position.y - kTRAJDT * (i : ℚ)],
           psis ++ [yaw_of waypoint.pose.orientation])

/-- The function `MPCWrapper::intrpolateTraj`: the four reference channels
`[x, y, psi, v]`. -/
def intrpolateTraj (yaw_of : Quaternion → ℚ) (ref_traj : Path)
    (curr_robot_pose : PoseStamped) : Except ReadError (List (List ℚ)) :=
  let nearsest_taj_state_index :=
    calculate_nearest_state_index ref_traj curr_robot_pose
  match interpolate_loop yaw_of ref_traj nearsest_taj_state_index
      kTRAJHORIZON 0 ([], [], []) with
  | Except.error e => Except.error e
  | Except.ok (xs, ys, psis) =>
    Except.ok [xs, ys, psis, List.replicate xs.length kTARGETSPEED]

/-- The read `interpolated_ref_traj[channel][i]` of a returned reference, as in
`publihInterpolatedRefTraj` (channels: 0 = x, 1 = y, 2 = psi, 3 = v). -/
def ref_sample (interpolated_ref_traj : List (List ℚ)) (channel i : Nat) : ℚ :=
  (interpolated_ref_traj.getD channel []).getD i 0

/-! ## Solver invocation (`MPCController::solve`) -/

/-- A dense matrix value (`casadi::native_DM`), read by row and column. -/
abbrev DM := Nat → Nat → ℚ

/-- What one call of `opti_->solve()` leaves behind: the value of `u_dv_` in
the returned solution when the call returns (`none` when it throws), and the
value `opti_->debug().value(u_dv_)` of the solver's working point. -/
structure OptiRun where
  sol_u_dv : Option DM
  debug_u_dv : DM

/-- The `SolutionResult` record. -/
structure SolutionResult where
  solve_time_ms : Int
  is_optimal : Bool
  control_input : ℚ × ℚ
deriving DecidableEq, Repr

/-- The function `MPCController::solve`: the `try` branch takes the solution and
sets the flag, the `catch` branch takes the working point; the first row of
`u_mpc` is returned either way. -/
def MPCController.solve (run : OptiRun) (execution_time : Int) : SolutionResult :=
  let is_solution_optimal : Bool := false
  let (u_mpc, is_solution_optimal) :=
    match run.sol_u_dv with
    | some sol => (sol, true)
    | none => (run.debug_u_dv, is_solution_optimal)
  { solve_time_ms := execution_time
    is_optimal := is_solution_optimal
    control_input := (u_mpc 0 0, u_mpc 0 1) }

/-! ## Control loop (`MPCWrapper::solve`) -/

/-- The lambda `regulate_max_speed` of `MPCWrapper::solve`. -/
def regulate_max_speed (kMAX_SPEED : ℚ) (twist_ : Twist) : Twist :=
  if twist_.linear_x > kMAX_SPEED then
    { twist_ with linear_x := kMAX_SPEED }
  else if twist_.linear_x < -kMAX_SPEED then
    { twist_ with linear_x := -kMAX_SPEED }
  else
    twist_

/-- The local `dt` of `MPCWrapper::solve` (`1.0 / 10.0`). -/
def dt : ℚ := 1 / 10

/-- The local `kMAX_SPEED` of `MPCWrapper::solve`. -/
def kMAX_SPEED : ℚ := 1

/-- The local `kL_F` of `MPCWrapper::solve` (rear to front axle, metres). -/
def kL_F : ℚ := 132 / 100

/-- The members of `MPCWrapper` that the loop reads and writes. -/
structure MPCWrapper where
  twist_ : Twist
  previous_control_ : ℚ × ℚ
  reference_traj_ : Path

/-- The parameter values pushed into the problem before a solve:
`updateInitialCondition`, `updateReference`, `updatePreviousInput`. -/
structure PushedParams where
  z_curr : ℚ × ℚ × ℚ × ℚ
  reference : List ℚ × List ℚ × List ℚ × List ℚ
  u_prev : ℚ × ℚ

/-- Lines 119 to 128 of `MPCWrapper::solve`: integrate the acceleration into
`twist_.linear.x`, set `twist_.angular.z` from it, then clamp the speed. -/
def apply_control (twist_ : Twist) (res : SolutionResult) : Twist :=
  let twist_ := { twist_ with linear_x := twist_.linear_x + res.control_input.1 * dt }
  let twist_ := { twist_ with angular_z := (twist_.linear_x * res.control_input.2) / kL_F }
  regulate_max_speed kMAX_SPEED twist_

/-- One pass of the `while` body of `MPCWrapper::solve`. `lookup` is the pose
written by `getCurrentPose` (`none` when it reports failure, which leaves the
default-constructed pose), `opti` is the solver run on the pushed parameters.
The result is the updated wrapper and the twist handed to
`cmd_vel_publisher_->publish`. -/
def MPCWrapper.solve (yaw_of : Quaternion → ℚ) (opti : PushedParams → OptiRun)
    (execution_time : Int) (lookup : Option PoseStamped) (w : MPCWrapper) :
    Except ReadError (MPCWrapper × Twist) :=
  let curr_robot_pose := lookup.getD PoseStamped.default
  match intrpolateTraj yaw_of w.reference_traj_ curr_robot_pose with
  | Except.error e => Except.error e
  | Except.ok ref_states =>
    let psi := yaw_of curr_robot_pose.pose.orientation
    let pushed : PushedParams :=
      { z_curr := (curr_robot_pose.pose.position.x, curr_robot_pose.pose.position.y, psi, 1)
        reference := (ref_states.getD 0 [], ref_states.getD 1 [],
          ref_states.getD 2 [], ref_states.getD 3 [])
        u_prev := w.previous_control_ }
    let res := MPCController.solve (opti pushed) execution_time
    let twist_ := apply_control w.twist_ res
    Except.ok ({ w with twist_ := twist_, previous_control_ := res.control_input }, twist_)

/-! ## The optimisation problem (`MPCController`) -/

/-- The fixed coefficients of `MPCController`, declared in `mpc_controller.hpp`:
horizon, step size, bounds, rate limits and the wheelbase split. -/
structure Coeffs where
  N : Nat
  DT : ℝ
  V_MIN : ℝ
  V_MAX : ℝ
  A_MIN : ℝ
  A_MAX : ℝ
  DF_MIN : ℝ
  DF_MAX : ℝ
  A_DOT_MIN : ℝ
  A_DOT_MAX : ℝ
  DF_DOT_MIN : ℝ
  DF_DOT_MAX : ℝ
  L_F : ℝ
  L_R : ℝ

/-- The parameters of the problem: `z_curr_` (4 entries), `u_prev_` (2 entries)
and `z_ref_` (`N` rows, 4 columns). -/
structure Params where
  z_curr_ : Nat → ℝ
  u_prev_ : Nat → ℝ
  z_ref_ : Nat → Nat → ℝ

/-- An assignment of the decision variables: `z_dv_` (`N + 1` rows, 4 columns),
`u_dv_` (`N` rows, 2 columns) and `sl_dv_` (`N` rows, 2 columns). -/
structure Vars where
  z_dv_ : Nat → Nat → ℝ
  u_dv_ : Nat → Nat → ℝ
  sl_dv_ : Nat → Nat → ℝ

/-- Column 0 of `z_dv_`. -/
def Vars.x_dv_ (a : Vars) (i : Nat) : ℝ := a.z_dv_ i 0

/-- Column 1 of `z_dv_`. -/
def Vars.y_dv_ (a : Vars) (i : Nat) : ℝ := a.z_dv_ i 1

/-- Column 2 of `z_dv_`. -/
def Vars.psi_dv_ (a : Vars) (i : Nat) : ℝ := a.z_dv_ i 2

/-- Column 3 of `z_dv_`. -/
def Vars.v_dv_ (a : Vars) (i : Nat) : ℝ := a.z_dv_ i 3

/-- Column 0 of `u_dv_`. -/
def Vars.acc_dv_ (a : Vars) (i : Nat) : ℝ := a.u_dv_ i 0

/-- Column 1 of `u_dv_`. -/
def Vars.df_dv_ (a : Vars) (i : Nat) : ℝ := a.u_dv_ i 1

/-- Column 0 of `sl_dv_`. -/
def Vars.sl_acc_dv_ (a : Vars) (i : Nat) : ℝ := a.sl_dv_ i 0

/-- Column 1 of `sl_dv_`. -/
def Vars.sl_df_dv_ (a : Vars) (i : Nat) : ℝ := a.sl_dv_ i 1

/-- One call of `opti_->subject_to` in `addConstraints`. The loop-emitted
constraints carry the value of the loop counter `i`. -/
inductive Constraint where
  | state_bound
  | init_x
  | init_y
  | init_psi
  | init_v
  | dyn_x (i : Nat)
  | dyn_y (i : Nat)
  | dyn_psi (i : Nat)
  | dyn_v (i : Nat)
  | acc_bound
  | df_bound
  | acc_rate_first
  | df_rate_first
  | acc_rate (i : Nat)
  | df_rate (i : Nat)
  | sl_df_nonneg
  | sl_acc_nonneg
deriving DecidableEq, Repr

/-- The calls of `opti_->subject_to` made by `MPCController::addConstraints`
for horizon `N`, in program order. -/
def addConstraints (N : Nat) : List Constraint :=
  [Constraint.state_bound,
   Constraint.init_x, Constraint.init_y, Constraint.init_psi, Constraint.init_v] ++
  (List.range N).flatMap (fun i =>
    [Constraint.dyn_x i, Constraint.dyn_y i, Constraint.dyn_psi i, Constraint.dyn_v i]) ++
  [Constraint.acc_bound, Constraint.df_bound,
   Constraint.acc_rate_first, Constraint.df_rate_first] ++
  (List.range (N - 1)).flatMap (fun i => [Constraint.acc_rate i, Constraint.df_rate i]) ++
  [Constraint.sl_df_nonneg, Constraint.sl_acc_nonneg]

/-- The meaning of each emitted constraint as a relation on the decision
variables; a constraint on a whole column holds entrywise. -/
def Constraint.holds (c : Coeffs) (p : Params) (a : Vars) : Constraint → Prop
  | Constraint.state_bound => ∀ i, i < c.N + 1 → c.V_MIN ≤ a.v_dv_ i ∧ a.v_dv_ i ≤ c.V_MAX
  | Constraint.init_x => a.x_dv_ 0 = p.z_curr_ 0
  | Constraint.init_y => a.y_dv_ 0 = p.z_curr_ 1
  | Constraint.init_psi => a.psi_dv_ 0 = p.z_curr_ 2
  | Constraint.init_v => a.v_dv_ 0 = p.z_curr_ 3
  | Constraint.dyn_x i =>
    let beta := Real.arctan (c.L_R / (c.L_F + c.L_R) * Real.tan (a.df_dv_ i))
    a.x_dv_ (i + 1) = a.x_dv_ i + c.DT * (a.v_dv_ i * Real.cos (a.psi_dv_ i + beta))
  | Constraint.dyn_y i =>
    let beta := Real.arctan (c.L_R / (c.L_F + c.L_R) * Real.tan (a.df_dv_ i))
    a.y_dv_ (i + 1) = a.y_dv_ i + c.DT * (a.v_dv_ i * Real.sin (a.psi_dv_ i + beta))
  | Constraint.dyn_psi i =>
    let beta := Real.arctan (c.L_R / (c.L_F + c.L_R) * Real.tan (a.df_dv_ i))
    a.psi_dv_ (i + 1) = a.psi_dv_ i + c.DT * (a.v_dv_ i / c.L_R * Real.sin beta)
  | Constraint.dyn_v i => a.v_dv_ (i + 1) = a.v_dv_ i + c.DT * a.acc_dv_ i
  | Constraint.acc_bound => ∀ i, i < c.N → c.A_MIN ≤ a.acc_dv_ i ∧ a.acc_dv_ i ≤ c.A_MAX
  | Constraint.df_bound => ∀ i, i < c.N → c.DF_MIN ≤ a.df_dv_ i ∧ a.df_dv_ i ≤ c.DF_MAX
  | Constraint.acc_rate_first =>
    c.A_DOT_MIN * c.DT - a.sl_acc_dv_ 0 ≤ a.acc_dv_ 0 - p.u_prev_ 0 ∧
      a.acc_dv_ 0 - p.u_prev_ 0 ≤ c.A_DOT_MAX * c.DT + a.sl_acc_dv_ 0
  | Constraint.df_rate_first =>
    c.DF_DOT_MIN * c.DT - a.sl_df_dv_ 0 ≤ a.df_dv_ 0 - p.u_prev_ 1 ∧
      a.df_dv_ 0 - p.u_prev_ 1 ≤ c.DF_DOT_MAX * c.DT + a.sl_df_dv_ 0
  | Constraint.acc_rate i =>
    c.A_DOT_MIN * c.DT - a.sl_acc_dv_ (i + 1) ≤ a.acc_dv_ (i + 1) - a.acc_dv_ i ∧
      a.acc_dv_ (i + 1) - a.acc_dv_ i ≤ c.A_DOT_MAX * c.DT + a.sl_acc_dv_ (i + 1)
  | Constraint.df_rate i =>
    c.DF_DOT_MIN * c.DT - a.sl_df_dv_ (i + 1) ≤ a.df_dv_ (i + 1) - a.df_dv_ i ∧
      a.df_dv_ (i + 1) - a.df_dv_ i ≤ c.DF_DOT_MAX * c.DT + a.sl_df_dv_ (i + 1)
  | Constraint.sl_df_nonneg => ∀ i, i < c.N → 0 ≤ a.sl_df_dv_ i
  | Constraint.sl_acc_nonneg => ∀ i, i < c.N → 0 ≤ a.sl_acc_dv_ i

/-- An assignment is feasible when every constraint emitted by `addConstraints`
holds for it. -/
def Feasible (c : Coeffs) (p : Params) (a : Vars) : Prop :=
  ∀ k ∈ addConstraints c.N, k.holds c p a

/-! ## The objective (`MPCController::addCost`) -/

/-- The weight matrix built by `Q.diag(vector_Q)`: the entries of the vector on
the diagonal, zero elsewhere. -/
def diag (v : Nat → ℝ) : Nat → Nat → ℝ :=
  fun j k => if j = k then v j else 0

/-- The lambda `quad_form` of `addCost`, `mtimes(z, mtimes(P, z.T))`, for a row
`z` of `n` entries and an `n` by `n` matrix `P`. -/
def quad_form (n : Nat) (z : Nat → ℝ) (P : Nat → Nat → ℝ) : ℝ :=
  Finset.sum (Finset.range n) fun j =>
    z j * Finset.sum (Finset.range n) fun k => P j k * z k

/-- The column sum `casadi::MX::sum1` of a column of `N` rows. -/
def sum1 (N : Nat) (col : Nat → ℝ) : ℝ :=
  Finset.sum (Finset.range N) col

/-- The first loop of `addCost`, started from `cost`: for `i < N` it adds
`quad_form(z_dv_(i + 1, :) - z_ref_(i, :), Q)`. -/
def tracking_cost (N : Nat) (Q : Nat → Nat → ℝ) (p : Params) (a : Vars) (cost : ℝ) : ℝ :=
  (List.range N).foldl
    (fun cost i => cost + quad_form 4 (fun k => a.z_dv_ (i + 1) k - p.z_ref_ i k) Q) cost

/-- The second loop of `addCost`, started from `cost`: for `i < N - 1` it adds
`quad_form(u_dv_(i + 1, :) - u_dv_(i, :), R)`. -/
def input_derivative_cost (N : Nat) (R : Nat → Nat → ℝ) (a : Vars) (cost : ℝ) : ℝ :=
  (List.range (N - 1)).foldl
    (fun cost i => cost + quad_form 2 (fun k => a.u_dv_ (i + 1) k - a.u_dv_ i k) R) cost

/-- The slack cost of `addCost`: `sum1(sl_df_dv_) + sum1(sl_acc_dv_)`. -/
def slack_cost (N : Nat) (a : Vars) : ℝ :=
  sum1 N a.sl_df_dv_ + sum1 N a.sl_acc_dv_

/-- The objective handed to `opti_->minimize` by `MPCController::addCost`, for
weight matrices `Q` (4 by 4) and `R` (2 by 2). -/
def addCost (N : Nat) (Q R : Nat → Nat → ℝ) (p : Params) (a : Vars) : ℝ :=
  let cost : ℝ := 0
  let cost := tracking_cost N Q p a cost
  let cost := input_derivative_cost N R a cost
  let cost := cost + slack_cost N a
  cost

/-! ## Construction of the wrapper (`MPCWrapper::MPCWrapper`) -/

/-- Modelled from the spec: the header `mpc_controller_wrapper.hpp`, which
declares the members `twist_` and `previous_control_`, is not among the sources;
the spec has the previous control "reset to zero/neutral on (re)initialization",
as default construction of a `std::pair<double, double>` and of a `Twist`
message does. The constructor stores its test trajectory as `reference_traj_`
and assigns neither of the other two members before it enters the loop. -/
def MPCWrapper.initial (reference_traj_ : Path) : MPCWrapper :=
  { twist_ := ⟨0, 0⟩
    previous_control_ := (0, 0)
    reference_traj_ := reference_traj_ }

/-! ## Parameter updates (`MPCController::update` and the setters) -/

/-- The values held by the `casadi::Opti` object: the parameter values written by
`set_value` and the initial guesses of the decision variables written by
`set_initial`. -/
structure OptiValues where
  z_curr_ : List ℚ
  u_prev_ : List ℚ
  x_ref_ : List ℚ
  y_ref_ : List ℚ
  psi_ref_ : List ℚ
  v_ref_ : List ℚ
  x_dv_ : List ℚ
  y_dv_ : List ℚ
  psi_dv_ : List ℚ
  v_dv_ : List ℚ
  acc_dv_ : List ℚ
  df_dv_ : List ℚ
  sl_acc_dv_ : List ℚ
  sl_df_dv_ : List ℚ
deriving DecidableEq, Repr

/-- The function `MPCController::updateInitialCondition`. -/
def updateInitialCondition (s : OptiValues) (x0 y0 psi0 v0 : ℚ) : OptiValues :=
  { s with z_curr_ := [x0, y0, psi0, v0] }

/-- The function `MPCController::updateReference`. -/
def updateReference (s : OptiValues) (x_ref y_ref psi_ref v_ref : List ℚ) : OptiValues :=
  { s with x_ref_ := x_ref, y_ref_ := y_ref, psi_ref_ := psi_ref, v_ref_ := v_ref }

/-- The function `MPCController::updateActualStates`. -/
def updateActualStates (s : OptiValues) (x_dv y_dv psi_dv v_dv : List ℚ) : OptiValues :=
  { s with x_dv_ := x_dv, y_dv_ := y_dv, psi_dv_ := psi_dv, v_dv_ := v_dv }

/-- The function `MPCController::updateSlackVars`. -/
def updateSlackVars (s : OptiValues) (sl_acc_dv sl_df_dv : List ℚ) : OptiValues :=
  { s with sl_acc_dv_ := sl_acc_dv, sl_df_dv_ := sl_df_dv }

/-- The function `MPCController::updatePreviousInput`. -/
def updatePreviousInput (s : OptiValues) (acc_prev df_prev : ℚ) : OptiValues :=
  { s with u_prev_ := [acc_prev, df_prev] }

/-- The function `MPCController::update`: it reads `inital_condition[0 .. 3]`,
`references[0 .. 3]` and `previous_inputs[0 .. 1]` (`none` when a vector is too
short for a read) and calls the three setters in turn. -/
def update (s : OptiValues) (inital_condition : List ℚ) (references : List (List ℚ))
    (previous_inputs : List ℚ) : Option OptiValues := do
  let ic0 ← inital_condition.get? 0
  let ic1 ← inital_condition.get? 1
  let ic2 ← inital_condition.get? 2
  let ic3 ← inital_condition.get? 3
  let s := updateInitialCondition s ic0 ic1 ic2 ic3
  let r0 ← references.get? 0
  let r1 ← references.get? 1
  let r2 ← references.get? 2
  let r3 ← references.get? 3
  let s := updateReference s r0 r1 r2 r3
  let p0 ← previous_inputs.get? 0
  let p1 ← previous_inputs.get? 1
  let s := updatePreviousInput s p0 p1
  pure s

/-- The spec's reading of the bulk push: the current state, the new reference
and the stored previous control pushed one after the other (step 4 of the
control cycle). -/
def spec_push_individually (s : OptiValues) (x y heading speed : ℚ)
    (x_ref y_ref heading_ref speed_ref : List ℚ) (accel steer : ℚ) : OptiValues :=
  updatePreviousInput
    (updateReference (updateInitialCondition s x y heading speed)
      x_ref y_ref heading_ref speed_ref)
    accel steer

/-! ## Row indices read while the problem is built -/

/-- The rows of `z_dv_` that a constraint reads by index; a constraint on a whole
column reads no row by index. -/
def Constraint.state_rows : Constraint → List Nat
  | Constraint.init_x => [0]
  | Constraint.init_y => [0]
  | Constraint.init_psi => [0]
  | Constraint.init_v => [0]
  | Constraint.dyn_x i => [i + 1, i]
  | Constraint.dyn_y i => [i + 1, i]
  | Constraint.dyn_psi i => [i + 1, i]
  | Constraint.dyn_v i => [i + 1, i]
  | _ => []

/-- The rows of `u_dv_` that a constraint reads by index. -/
def Constraint.control_rows : Constraint → List Nat
  | Constraint.dyn_x i => [i]
  | Constraint.dyn_y i => [i]
  | Constraint.dyn_psi i => [i]
  | Constraint.dyn_v i => [i]
  | Constraint.acc_rate_first => [0]
  | Constraint.df_rate_first => [0]
  | Constraint.acc_rate i => [i + 1, i]
  | Constraint.df_rate i => [i + 1, i]
  | _ => []

/-- The rows of `sl_dv_` that a constraint reads by index. -/
def Constraint.slack_rows : Constraint → List Nat
  | Constraint.acc_rate_first => [0]
  | Constraint.df_rate_first => [0]
  | Constraint.acc_rate i => [i + 1]
  | Constraint.df_rate i => [i + 1]
  | _ => []

/-- Whether the constraint is one of the four dynamics equalities of the first
loop of `addConstraints`. -/
def Constraint.is_dynamics : Constraint → Bool
  | Constraint.dyn_x _ => true
  | Constraint.dyn_y _ => true
  | Constraint.dyn_psi _ => true
  | Constraint.dyn_v _ => true
  | _ => false

/-- The control step whose change an input-rate constraint bounds: step 0 for
the two constraints against `u_prev_`, step `i + 1` for the two emitted at loop
counter `i`; `none` for every other constraint. -/
def Constraint.rate_step : Constraint → Option Nat
  | Constraint.acc_rate_first => some 0
  | Constraint.df_rate_first => some 0
  | Constraint.acc_rate i => some (i + 1)
  | Constraint.df_rate i => some (i + 1)
  | _ => none

/-- A read of one row of a declared matrix. -/
inductive RowRead where
  | state (row : Nat)
  | control (row : Nat)
  | slack (row : Nat)
  | reference (row : Nat)
deriving DecidableEq, Repr

/-- Whether a row exists in the matrices declared by the constructor for horizon
`N`: `z_dv_` has `N + 1` rows, `u_dv_`, `sl_dv_` and `z_ref_` have `N` rows. -/
def RowRead.in_range (N : Nat) : RowRead → Bool
  | RowRead.state row => decide (row < N + 1)
  | RowRead.control row => decide (row < N)
  | RowRead.slack row => decide (row < N)
  | RowRead.reference row => decide (row < N)

/-- The indexed reads of one constraint. -/
def Constraint.reads (k : Constraint) : List RowRead :=
  k.state_rows.map RowRead.state ++ k.control_rows.map RowRead.control ++
    k.slack_rows.map RowRead.slack

/-- The indexed reads of `addCost`: `z_dv_(i + 1, :)` and `z_ref_(i, :)` for
`i < N`, then `u_dv_(i + 1, :)` and `u_dv_(i, :)` for `i < N - 1`; the slack
columns are summed whole. -/
def addCost_reads (N : Nat) : List RowRead :=
  (List.range N).flatMap (fun i => [RowRead.state (i + 1), RowRead.reference i]) ++
    (List.range (N - 1)).flatMap (fun i => [RowRead.control (i + 1), RowRead.control i])

/-- The indexed reads of the constructor `MPCController::MPCController`, in
program order: `addConstraints`, `addCost`, then the first `solve()`, which
extracts `u_mpc(0, 0)` and `u_mpc(0, 1)`. -/
def construction_reads (N : Nat) : List RowRead :=
  (addConstraints N).flatMap Constraint.reads ++ addCost_reads N ++
    [RowRead.control 0, RowRead.control 0]

/-- The construction of the problem for horizon `N`: it fails at the first read
of a row that the declared matrices do not have. -/
def MPCController.construct (N : Nat) : Except RowRead Unit :=
  match (construction_reads N).find? (fun rd => !rd.in_range N) with
  | some rd => Except.error rd
  | none => Except.ok ()

/-! ## Point clouds (`cost_regression_utils.cpp`) -/

/-- The `pcl::PointXYZRGB` point: coordinates and 8-bit colour channels. -/
structure PointXYZRGB where
  x : ℚ
  y : ℚ
  z : ℚ
  r : Nat
  g : Nat
  b : Nat
  a : Nat
deriving DecidableEq, Repr

/-- The `pcl::PointCloud<pcl::PointXYZRGB>` cloud. -/
structure PointCloud where
  points : List PointXYZRGB
  width : Nat
  height : Nat
deriving DecidableEq, Repr

/-- The function `get_non_traversable_points`: the loop pushes every point whose
`r` is non-zero. -/
def get_non_traversable_points (cloud : PointCloud) : PointCloud :=
  let points := cloud.points.foldl
    (fun pure_non_traversable_points p =>
      if p.r ≠ 0 then pure_non_traversable_points ++ [p] else pure_non_traversable_points) []
  { points := points, height := 1, width := points.length }

/-- The function `get_traversable_points`: the loop pushes every point whose `g`
is non-zero. -/
def get_traversable_points (cloud : PointCloud) : PointCloud :=
  let points := cloud.points.foldl
    (fun pure_traversable_points p =>
      if p.g ≠ 0 then pure_traversable_points ++ [p] else pure_traversable_points) []
  { points := points, height := 1, width := points.length }

/-- The conversion of a `double` to an 8-bit channel, as in `i.r = colors[0]`:
the value is truncated; a value whose truncation is outside `0 .. 255` has no
defined result (`none`). -/
def double_to_uint8 (d : ℚ) : Option Nat :=
  if -1 < d ∧ d < 256 then some ⌊d⌋₊ else none

/-- The loop of `set_cloud_color`. Its variable `i` is a reference to the point
of the input cloud, so the recoloured point is both written back to the input
and pushed to the new cloud: the list returned is the points of both. -/
def set_cloud_color_loop (colors : List ℚ) : List PointXYZRGB → Option (List PointXYZRGB)
  | [] => some []
  | i :: rest => do
    let r ← (colors.get? 0).bind double_to_uint8
    let g ← (colors.get? 1).bind double_to_uint8
    let b ← (colors.get? 2).bind double_to_uint8
    let i := { i with r := r, g := g, b := b }
    let rest ← set_cloud_color_loop colors rest
    pure (i :: rest)

/-- The function `set_cloud_color`: the pair of the returned `new_colored_cloud`
and of the input cloud as the call leaves it. -/
def set_cloud_color (cloud : PointCloud) (colors : List ℚ) :
    Option (PointCloud × PointCloud) := do
  let points ← set_cloud_color_loop colors cloud.points
  pure ({ points := points, height := 1, width := points.length },
    { cloud with points := points })

/-! ## Slope of a fitted plane -/

/-- The function `absolute_rpy_from_plane` on the coefficients
`plane_model.values`, over an ordered field with the library square root and
the constant `M_PI` as parameters. -/
def absolute_rpy_from_plane {α : Type} [LinearOrderedField α] (sqrt : α → α) (pi : α)
    (values : Nat → α) : List α :=
  let kRAD2DEG := 180 / pi
  let vector_magnitude := sqrt (values 0 ^ 2 + values 1 ^ 2 + values 2 ^ 2)
  let roll := |values 0 / vector_magnitude * kRAD2DEG|
  let pitch := |values 1 / vector_magnitude * kRAD2DEG|
  let yaw := |values 2 / vector_magnitude * kRAD2DEG|
  [roll, pitch, yaw]

/-- The local `MAX_ALLOWED_TILT` of `MapManager::regressCosts` (degrees). -/
def MAX_ALLOWED_TILT {α : Type} [LinearOrderedField α] : α := 40

/-- The local `kMAX_COLOR_RANGE` of `MapManager::regressCosts`. -/
def kMAX_COLOR_RANGE {α : Type} [LinearOrderedField α] : α := 255

/-- The `slope_cost` of `MapManager::regressCosts`, from the first two values
returned by `absolute_rpy_from_plane`. -/
def slope_cost {α : Type} [LinearOrderedField α] (pitch roll : α) : α :=
  min (max pitch roll / MAX_ALLOWED_TILT) 1 * kMAX_COLOR_RANGE

/-! ## Sample data -/

/-- A ten-waypoint path along the diagonal `(i, -i)`, `i = 1 .. 10`, every pose
with identity rotation. -/
def diagonal_path : Path :=
  ⟨[1, 2, 3, 4, 5, 6, 7, 8, 9, 10].map (fun i : ℚ => PoseStamped.atXY i (-i))⟩

/-- A solver run that succeeds with the same row `(accel, steer)` at every step. -/
def constant_run (accel steer : ℚ) : OptiRun :=
  ⟨some (fun _ k => if k = 0 then accel else steer), fun _ _ => 0⟩

/-- Sample coefficients: horizon 10, step 0.2, acceleration within `[-3, 3]`. -/
def sample_coeffs : Coeffs :=
  { N := 10, DT := 0.2, V_MIN := 0, V_MAX := 10, A_MIN := -3, A_MAX := 3,
    DF_MIN := -0.5, DF_MAX := 0.5, A_DOT_MIN := -1.5, A_DOT_MAX := 1.5,
    DF_DOT_MIN := -0.5, DF_DOT_MAX := 0.5, L_F := 0.66, L_R := 0.66 }

/-- Sample parameters: the vehicle at the origin, heading 0, speed 1, with zero
previous control and an all-zero reference. -/
def cruise_params : Params :=
  { z_curr_ := fun k => if k = 3 then 1 else 0
    u_prev_ := fun _ => 0
    z_ref_ := fun _ _ => 0 }

/-- The straight rollout at constant speed 1: `x_i = 0.2 * i`, zero controls,
zero slacks. -/
def cruise_vars : Vars :=
  { z_dv_ := fun i k => if k = 0 then 0.2 * (i : ℝ) else if k = 3 then 1 else 0
    u_dv_ := fun _ _ => 0
    sl_dv_ := fun _ _ => 0 }

/-- A ten-waypoint path along the x axis, `(i, 0)`, `i = 1 .. 10`, every pose
with identity rotation. -/
def x_axis_path : Path :=
  ⟨[1, 2, 3, 4, 5, 6, 7, 8, 9, 10].map (fun i : ℚ => PoseStamped.atXY i 0)⟩

/-- The parameters of the zero scenario: zero current state, zero previous
control, all-zero reference. -/
def zero_params : Params :=
  { z_curr_ := fun _ => 0
    u_prev_ := fun _ => 0
    z_ref_ := fun _ _ => 0 }

/-- The all-zero assignment: every state, control and slack is zero. -/
def zero_vars : Vars :=
  { z_dv_ := fun _ _ => 0
    u_dv_ := fun _ _ => 0
    sl_dv_ := fun _ _ => 0 }

/-- Sample weight vectors: every weight is 1. -/
def unit_weights : Nat → ℝ :=
  fun _ => 1

/-- An assignment of the zero scenario that stands still with the steering held
at 0.1: all states and slacks zero, zero acceleration. -/
def steered_vars : Vars :=
  { z_dv_ := fun _ _ => 0
    u_dv_ := fun _ k => if k = 1 then 0.1 else 0
    sl_dv_ := fun _ _ => 0 }

/-- The reference interpolated on `diagonal_path` from the default pose with a
yaw extraction that returns 0. -/
def diagonal_reference : List (List ℚ) :=
  [[1, 13 / 10, 8 / 5, 19 / 10, 11 / 5, 5 / 2, 14 / 5, 31 / 10, 17 / 5, 37 / 10],
   [-1, -13 / 10, -8 / 5, -19 / 10, -11 / 5, -5 / 2, -14 / 5, -31 / 10, -17 / 5, -37 / 10],
   [0, 0, 0, 0, 0, 0, 0, 0, 0, 0],
   [1, 1, 1, 1, 1, 1, 1, 1, 1, 1]]

/-- The reference interpolated on `x_axis_path` from the default pose with a yaw
extraction that returns 0. -/
def x_axis_reference : List (List ℚ) :=
  [[1, 13 / 10, 8 / 5, 19 / 10, 11 / 5, 5 / 2, 14 / 5, 31 / 10, 17 / 5, 37 / 10],
   [0, -3 / 10, -3 / 5, -9 / 10, -6 / 5, -3 / 2, -9 / 5, -21 / 10, -12 / 5, -27 / 10],
   [0, 0, 0, 0, 0, 0, 0, 0, 0, 0],
   [1, 1, 1, 1, 1, 1, 1, 1, 1, 1]]

/-- A path with two waypoints at the same distance 1 of the origin, after one at
distance 2. -/
def tie_path : Path :=
  ⟨[PoseStamped.atXY 2 0, PoseStamped.atXY 1 0, PoseStamped.atXY 0 1]⟩

/-- A solver that throws on every run and whose working point depends on the
previous control it was given: row 0 is `(prev_accel + 1, prev_steer + 2)`. -/
def echo_fallback (pushed : PushedParams) : OptiRun :=
  ⟨none, fun _ k => if k = 0 then pushed.u_prev.1 + 1 else pushed.u_prev.2 + 2⟩

/-- A cloud of three points: red, green, and one with both channels set. -/
def sample_cloud : PointCloud :=
  { points := [⟨0, 0, 0, 255, 0, 0, 255⟩, ⟨1, 0, 0, 0, 255, 0, 255⟩, ⟨2, 0, 0, 10, 20, 30, 255⟩]
    width := 3
    height := 1 }

/-- The coefficients of the horizontal plane `z = 0`, normal `(0, 0, 1)`. -/
def level_plane : Nat → ℝ :=
  fun k => if k = 2 then 1 else 0

/-! ## The integer comparison agrees with the real square root -/

/-- The Boolean test `sqrt_lt_int r c` decides `sqrt r < c` over the reals. -/
theorem sqrt_lt_int_iff (r : ℚ) (c : Int) :
    sqrt_lt_int r c = true ↔ Real.sqrt (r : ℝ) < (c : ℝ) := by
  unfold sqrt_lt_int
  rw [decide_eq_true_iff]
  constructor
  · rintro ⟨hc, hr⟩
    have hc' : (0 : ℝ) < c := by exact_mod_cast hc
    rw [Real.sqrt_lt' hc']
    exact_mod_cast hr
  · intro h
    have hc' : (0 : ℝ) < c := lt_of_le_of_lt (Real.sqrt_nonneg _) h
    refine ⟨by exact_mod_cast hc', ?_⟩
    have := (Real.sqrt_lt' hc').1 h
    exact_mod_cast this

/-- The integer `sqrt_to_int r` is the integer part of the real `sqrt r`. -/
theorem sqrt_to_int_eq (r : ℚ) : sqrt_to_int r = ⌊Real.sqrt (r : ℝ)⌋ := by
  unfold sqrt_to_int
  symm
  rw [Int.floor_eq_iff]
  rcases lt_or_le r 0 with hr | hr
  · have h0 : ⌊r⌋₊ = 0 := Nat.floor_of_nonpos hr.le
    have h1 : Real.sqrt (r : ℝ) = 0 := Real.sqrt_eq_zero_of_nonpos (by exact_mod_cast hr.le)
    simp [h0, h1]
  · have hfl : ((⌊r⌋₊ : ℕ) : ℝ) ≤ r := by
      have := Nat.floor_le hr
      exact_mod_cast this
    have hlt : (r : ℝ) < (⌊r⌋₊ : ℕ) + 1 := by
      have := Nat.lt_floor_add_one r
      exact_mod_cast this
    constructor
    · apply Real.le_sqrt_of_sq_le
      have h := Nat.sqrt_le' ⌊r⌋₊
      have h' : ((Nat.sqrt ⌊r⌋₊ : ℕ) : ℝ) ^ 2 ≤ (⌊r⌋₊ : ℕ) := by exact_mod_cast h
      push_cast
      linarith
    · have h2 : ⌊r⌋₊ + 1 ≤ (Nat.sqrt ⌊r⌋₊ + 1) ^ 2 := Nat.lt_succ_sqrt' ⌊r⌋₊
      have h' : ((⌊r⌋₊ : ℕ) : ℝ) + 1 ≤ ((Nat.sqrt ⌊r⌋₊ : ℕ) + 1 : ℝ) ^ 2 := by
        exact_mod_cast h2
      have hpos : (0 : ℝ) < (Nat.sqrt ⌊r⌋₊ : ℕ) + 1 := by positivity
      push_cast
      rw [Real.sqrt_lt' hpos]
      linarith

/-- The integer part of `sqrt 2` is 1. -/
theorem sqrt_to_int_two : sqrt_to_int 2 = 1 := by
  have h : ⌊(2 : ℚ)⌋₊ = 2 := by simp
  have h2 : Nat.sqrt 2 = 1 := by
    symm
    rw [Nat.eq_sqrt]
    norm_num
  simp [sqrt_to_int, h, h2]

/-! ## Nearest waypoint -/

/-- Claim C1, evaluated on the code: with waypoints at distance 0.75 and 0.5 of
the pose the search returns index 0 although waypoint 1 is strictly closer (the
running minimum is stored in an `int`, so 0.75 is kept as 0 and 0.5 is not below
it); and for a one-waypoint path at distance 10000 it returns `-1`, which is no
index of the path. -/
theorem calculate_nearest_state_index_not_nearest :
    (calculate_nearest_state_index
        ⟨[PoseStamped.atXY (3 / 4) 0, PoseStamped.atXY (1 / 2) 0]⟩ (PoseStamped.atXY 0 0) = 0 ∧
      sq_distance (PoseStamped.atXY (1 / 2) 0) (PoseStamped.atXY 0 0) <
        sq_distance (PoseStamped.atXY (3 / 4) 0) (PoseStamped.atXY 0 0)) ∧
    calculate_nearest_state_index ⟨[PoseStamped.atXY 10000 0]⟩ (PoseStamped.atXY 0 0) = -1 := by
  have h : ⌊(9 / 16 : ℚ)⌋₊ = 0 := Nat.floor_eq_zero.2 (by norm_num)
  refine ⟨⟨?_, ?_⟩, ?_⟩
  · simp [calculate_nearest_state_index, nearest_loop, sq_distance, sqrt_lt_int, sqrt_to_int,
      PoseStamped.atXY]
    norm_num [h]
  · simp [sq_distance, PoseStamped.atXY]
    norm_num
  · simp [calculate_nearest_state_index, nearest_loop, sq_distance, sqrt_lt_int,
      PoseStamped.atXY]

/-- The nearest waypoint of the diagonal path from the default pose is the
first one. -/
theorem nearest_diagonal :
    calculate_nearest_state_index diagonal_path PoseStamped.default = 0 := by
  simp [calculate_nearest_state_index, diagonal_path, nearest_loop, sq_distance, sqrt_lt_int,
    PoseStamped.atXY, PoseStamped.default]
  norm_num [sqrt_to_int_two]

/-! ## Reference interpolation -/

/-- Claim C2, evaluated on the code: on the empty path, for every pose, the
nearest-index search returns `-1` and `intrpolateTraj` goes on to read
`poses[-1]`, outside the vector; the control cycle stops at that same read.
The source has no empty-path check and no "no reference" result. -/
theorem intrpolateTraj_empty_reads_out_of_bounds (yaw_of : Quaternion → ℚ)
    (opti : PushedParams → OptiRun) (execution_time : Int) (lookup : Option PoseStamped)
    (twist_ : Twist) (previous_control_ : ℚ × ℚ) (curr_robot_pose : PoseStamped) :
    calculate_nearest_state_index ⟨[]⟩ curr_robot_pose = -1 ∧
      intrpolateTraj yaw_of ⟨[]⟩ curr_robot_pose =
        Except.error (ReadError.outOfBounds (-1)) ∧
      MPCWrapper.solve yaw_of opti execution_time lookup ⟨twist_, previous_control_, ⟨[]⟩⟩ =
        Except.error (ReadError.outOfBounds (-1)) := by
  refine ⟨rfl, rfl, rfl⟩

/-- Claim C3, evaluated on the code: on the one-waypoint path `[(0, 0)]` with
the pose at `(0, 0)` the anchor index is 0, a valid index, yet `intrpolateTraj`
does not return a reference: its second iteration reads `poses[1]` for the
heading, outside the vector. -/
theorem intrpolateTraj_short_path_reads_out_of_bounds (yaw_of : Quaternion → ℚ) :
    calculate_nearest_state_index ⟨[PoseStamped.atXY 0 0]⟩ (PoseStamped.atXY 0 0) = 0 ∧
      intrpolateTraj yaw_of ⟨[PoseStamped.atXY 0 0]⟩ (PoseStamped.atXY 0 0) =
        Except.error (ReadError.outOfBounds 1) := by
  have h : calculate_nearest_state_index ⟨[PoseStamped.atXY 0 0]⟩ (PoseStamped.atXY 0 0) = 0 := by
    simp [calculate_nearest_state_index, nearest_loop, sq_distance, sqrt_lt_int, sqrt_to_int,
      PoseStamped.atXY]
  refine ⟨h, ?_⟩
  simp [intrpolateTraj, h, kTRAJHORIZON, interpolate_loop, pose_at]

/-! ## Solver invocation -/

/-- Claim C4: `MPCController::solve` returns a result for every outcome of the
solver. When the solver returns, the result is flagged optimal and carries row 0
of the solution's control matrix; when it throws, the result is flagged
non-optimal and carries row 0 of the solver's working point; the flag is set
exactly when the solver returned. -/
theorem MPCController_solve_fail_soft (sol debug : DM) (execution_time : Int) :
    MPCController.solve ⟨some sol, debug⟩ execution_time =
        ⟨execution_time, true, (sol 0 0, sol 0 1)⟩ ∧
      MPCController.solve ⟨none, debug⟩ execution_time =
        ⟨execution_time, false, (debug 0 0, debug 0 1)⟩ ∧
      ∀ run : OptiRun,
        (MPCController.solve run execution_time).is_optimal = true ↔
          run.sol_u_dv.isSome = true := by
  refine ⟨rfl, rfl, ?_⟩
  intro run
  rcases run with ⟨_ | s, d⟩ <;> simp [MPCController.solve]

/-! ## Control loop -/

/-- On the diagonal path, from the default pose, interpolation returns a
reference. -/
theorem intrpolateTraj_diagonal (yaw_of : Quaternion → ℚ) :
    ∃ ref_states, intrpolateTraj yaw_of diagonal_path PoseStamped.default =
      Except.ok ref_states := by
  simp [intrpolateTraj, nearest_diagonal, kTRAJHORIZON, interpolate_loop, pose_at]
  simp [diagonal_path]

/-- A cycle that emits a command applied `apply_control` to the stored twist and
the result of the solve run on parameters whose previous control is the stored
one; it stores the emitted twist and the returned control. -/
theorem MPCWrapper_solve_ok (yaw_of : Quaternion → ℚ) (opti : PushedParams → OptiRun)
    (execution_time : Int) (lookup : Option PoseStamped) (w w' : MPCWrapper) (cmd : Twist)
    (h : MPCWrapper.solve yaw_of opti execution_time lookup w = Except.ok (w', cmd)) :
    ∃ pushed : PushedParams, pushed.u_prev = w.previous_control_ ∧
      cmd = apply_control w.twist_ (MPCController.solve (opti pushed) execution_time) ∧
      w' = { w with
        twist_ := cmd
        previous_control_ :=
          (MPCController.solve (opti pushed) execution_time).control_input } := by
  unfold MPCWrapper.solve at h
  dsimp only at h
  cases hi : intrpolateTraj yaw_of w.reference_traj_ (lookup.getD PoseStamped.default) with
  | error e => rw [hi] at h; simp at h
  | ok ref_states =>
    rw [hi] at h
    simp only [Except.ok.injEq, Prod.mk.injEq] at h
    obtain ⟨h1, h2⟩ := h
    refine ⟨_, rfl, h2.symm, ?_⟩
    rw [← h1, ← h2]

/-- On the diagonal path a cycle emits a command, for every solver. -/
theorem MPCWrapper_solve_diagonal (yaw_of : Quaternion → ℚ) (accel steer : ℚ)
    (twist_ : Twist) (prev : ℚ × ℚ) :
    MPCWrapper.solve yaw_of (fun _ => constant_run accel steer) 0 none
        ⟨twist_, prev, diagonal_path⟩ =
      Except.ok (⟨apply_control twist_ ⟨0, true, (accel, steer)⟩, (accel, steer), diagonal_path⟩,
        apply_control twist_ ⟨0, true, (accel, steer)⟩) := by
  obtain ⟨r, hr⟩ := intrpolateTraj_diagonal yaw_of
  simp [MPCWrapper.solve, hr, MPCController.solve, constant_run]

/-- The speed after `apply_control` is the integrated speed clamped to
`[-kMAX_SPEED, kMAX_SPEED]`. -/
theorem apply_control_linear (twist_ : Twist) (res : SolutionResult) :
    (apply_control twist_ res).linear_x =
      max (-kMAX_SPEED) (min kMAX_SPEED (twist_.linear_x + res.control_input.1 * dt)) := by
  unfold apply_control regulate_max_speed kMAX_SPEED
  simp only []
  split_ifs with h1 h2
  · simp only []
    rw [min_eq_left h1.le]
    simp
  · simp only []
    rw [max_eq_left]
    exact (min_le_right _ _).trans h2.le
  · simp only []
    push_neg at h1 h2
    rw [min_eq_right h1, max_eq_right h2]

/-- The angular rate after `apply_control` is computed from the integrated speed,
before the clamp. -/
theorem apply_control_angular (twist_ : Twist) (res : SolutionResult) :
    (apply_control twist_ res).angular_z =
      (twist_.linear_x + res.control_input.1 * dt) * res.control_input.2 / kL_F := by
  unfold apply_control regulate_max_speed
  simp only []
  split_ifs <;> rfl


/-- The cycle run on the diagonal path with stored speed 1 and a solve returning
`(accel, steer) = (3, 1)`: the speed 1.3 is clamped to 1, the angular rate is
`1.3 / 1.32`. -/
theorem MPCWrapper_solve_clamped_example :
    MPCWrapper.solve (fun _ => 0) (fun _ => constant_run 3 1) 0 none
        ⟨⟨1, 0⟩, (0, 0), diagonal_path⟩ =
      Except.ok (⟨⟨1, 65 / 66⟩, (3, 1), diagonal_path⟩, ⟨1, 65 / 66⟩) := by
  have h : apply_control ⟨1, 0⟩ ⟨0, true, (3, 1)⟩ = ⟨1, 65 / 66⟩ := by
    simp [apply_control, regulate_max_speed, dt, kL_F, kMAX_SPEED]
    norm_num
  rw [MPCWrapper_solve_diagonal, h]

/-- The cycle run on the diagonal path with stored speed 0 and a solve returning
`(accel, steer) = (3, 1)`: the speed 0.3 is not clamped, the angular rate is
`0.3 / 1.32`. -/
theorem MPCWrapper_solve_unclamped_example :
    MPCWrapper.solve (fun _ => 0) (fun _ => constant_run 3 1) 0 none
        ⟨⟨0, 0⟩, (0, 0), diagonal_path⟩ =
      Except.ok (⟨⟨3 / 10, 5 / 22⟩, (3, 1), diagonal_path⟩, ⟨3 / 10, 5 / 22⟩) := by
  have h : apply_control ⟨0, 0⟩ ⟨0, true, (3, 1)⟩ = ⟨3 / 10, 5 / 22⟩ := by
    simp [apply_control, regulate_max_speed, dt, kL_F, kMAX_SPEED]
    norm_num
  rw [MPCWrapper_solve_diagonal, h]

/-- Claim C5: in every control cycle that emits a command, the emitted linear
speed is the stored speed plus `accel * dt` (`dt = 0.1`, `accel` the first
component of the control the solve returned) clamped to
`[-kMAX_SPEED, kMAX_SPEED]` with `kMAX_SPEED = 1`; a speed inside the range is
left unchanged; the emitted speed has absolute value at most `kMAX_SPEED` and is
the speed stored for the next cycle. -/
theorem cycle_speed_integrated_and_clamped (yaw_of : Quaternion → ℚ)
    (opti : PushedParams → OptiRun) (execution_time : Int) (lookup : Option PoseStamped)
    (w w' : MPCWrapper) (cmd : Twist)
    (h : MPCWrapper.solve yaw_of opti execution_time lookup w = Except.ok (w', cmd)) :
    ∃ pushed : PushedParams, pushed.u_prev = w.previous_control_ ∧
      cmd.linear_x = max (-kMAX_SPEED) (min kMAX_SPEED (w.twist_.linear_x +
        (MPCController.solve (opti pushed) execution_time).control_input.1 * dt)) ∧
      (|w.twist_.linear_x +
          (MPCController.solve (opti pushed) execution_time).control_input.1 * dt| ≤ kMAX_SPEED →
        cmd.linear_x = w.twist_.linear_x +
          (MPCController.solve (opti pushed) execution_time).control_input.1 * dt) ∧
      |cmd.linear_x| ≤ kMAX_SPEED ∧ w'.twist_ = cmd ∧ dt = 1 / 10 ∧ kMAX_SPEED = 1 := by
  obtain ⟨pushed, hp, hcmd, hw⟩ := MPCWrapper_solve_ok yaw_of opti execution_time lookup w w' cmd h
  have hlin := apply_control_linear w.twist_ (MPCController.solve (opti pushed) execution_time)
  rw [← hcmd] at hlin
  have hk : (0 : ℚ) ≤ kMAX_SPEED := by norm_num [kMAX_SPEED]
  refine ⟨pushed, hp, hlin, ?_, ?_, ?_, rfl, rfl⟩
  · intro hin
    rw [abs_le] at hin
    rw [hlin, min_eq_right hin.2, max_eq_right hin.1]
  · rw [hlin, abs_le]
    exact ⟨le_max_left _ _, max_le (by linarith) (min_le_left _ _)⟩
  · rw [hw]

/-- Claim C5, witness: the cycle on the diagonal path with stored speed 1 and a
returned acceleration 3 emits speed 1 (1.3 clamped). -/
theorem cycle_speed_integrated_and_clamped_witness :
    MPCWrapper.solve (fun _ => 0) (fun _ => constant_run 3 1) 0 none
        ⟨⟨1, 0⟩, (0, 0), diagonal_path⟩ =
      Except.ok (⟨⟨1, 65 / 66⟩, (3, 1), diagonal_path⟩, ⟨1, 65 / 66⟩) ∧
    ∃ pushed : PushedParams, pushed.u_prev = ((0, 0) : ℚ × ℚ) ∧
      (1 : ℚ) = max (-kMAX_SPEED) (min kMAX_SPEED ((1 : ℚ) +
        (MPCController.solve (constant_run 3 1) 0).control_input.1 * dt)) ∧
      (|(1 : ℚ) + (MPCController.solve (constant_run 3 1) 0).control_input.1 * dt| ≤
          kMAX_SPEED →
        (1 : ℚ) = 1 + (MPCController.solve (constant_run 3 1) 0).control_input.1 * dt) ∧
      |(1 : ℚ)| ≤ kMAX_SPEED ∧ (⟨1, 65 / 66⟩ : Twist) = ⟨1, 65 / 66⟩ ∧
      dt = 1 / 10 ∧ kMAX_SPEED = 1 :=
  ⟨MPCWrapper_solve_clamped_example,
    cycle_speed_integrated_and_clamped (fun _ => 0) (fun _ => constant_run 3 1) 0 none
      ⟨⟨1, 0⟩, (0, 0), diagonal_path⟩ ⟨⟨1, 65 / 66⟩, (3, 1), diagonal_path⟩ ⟨1, 65 / 66⟩
      MPCWrapper_solve_clamped_example⟩

/-- Claim C6 as stated fails: with stored speed 1 and a solve returning
acceleration 3 and steering 1, the cycle emits linear speed 1 (clamped from 1.3)
and angular rate `1.3 / 1.32 = 65 / 66`, which is not
`linear_speed * steering / wheelbase = 1 / 1.32`. -/
theorem cycle_angular_rate_not_from_emitted_speed :
    MPCWrapper.solve (fun _ => 0) (fun _ => constant_run 3 1) 0 none
        ⟨⟨1, 0⟩, (0, 0), diagonal_path⟩ =
      Except.ok (⟨⟨1, 65 / 66⟩, (3, 1), diagonal_path⟩, ⟨1, 65 / 66⟩) ∧
    (MPCController.solve (constant_run 3 1) 0).control_input = (3, 1) ∧
    (⟨1, 65 / 66⟩ : Twist).angular_z ≠ (⟨1, 65 / 66⟩ : Twist).linear_x * 1 / kL_F := by
  refine ⟨MPCWrapper_solve_clamped_example, ?_, ?_⟩
  · simp [MPCController.solve, constant_run]
  · norm_num [kL_F]

/-- Claim C6, amended: in every control cycle that emits a command, the emitted
angular rate is `s * steering / wheelbase` with `wheelbase = 1.32`, where `s` is
the integrated speed (stored speed plus `accel * dt`) before the clamp; when
that speed is within `[-kMAX_SPEED, kMAX_SPEED]` it is the emitted linear speed,
and the bicycle relation holds for the emitted command. -/
theorem cycle_angular_rate_from_integrated_speed (yaw_of : Quaternion → ℚ)
    (opti : PushedParams → OptiRun) (execution_time : Int) (lookup : Option PoseStamped)
    (w w' : MPCWrapper) (cmd : Twist)
    (h : MPCWrapper.solve yaw_of opti execution_time lookup w = Except.ok (w', cmd)) :
    ∃ pushed : PushedParams, pushed.u_prev = w.previous_control_ ∧
      cmd.angular_z = (w.twist_.linear_x +
          (MPCController.solve (opti pushed) execution_time).control_input.1 * dt) *
        (MPCController.solve (opti pushed) execution_time).control_input.2 / kL_F ∧
      (|w.twist_.linear_x +
          (MPCController.solve (opti pushed) execution_time).control_input.1 * dt| ≤ kMAX_SPEED →
        cmd.angular_z = cmd.linear_x *
          (MPCController.solve (opti pushed) execution_time).control_input.2 / kL_F) ∧
      kL_F = 132 / 100 := by
  obtain ⟨pushed, hp, hcmd, -⟩ := MPCWrapper_solve_ok yaw_of opti execution_time lookup w w' cmd h
  have hlin := apply_control_linear w.twist_ (MPCController.solve (opti pushed) execution_time)
  have hang := apply_control_angular w.twist_ (MPCController.solve (opti pushed) execution_time)
  rw [← hcmd] at hlin hang
  refine ⟨pushed, hp, hang, ?_, rfl⟩
  intro hin
  rw [abs_le] at hin
  rw [hang, hlin, min_eq_right hin.2, max_eq_right hin.1]

/-- Claim C6, witness: the cycle on the diagonal path with stored speed 0 and a
returned control `(3, 1)` emits speed 0.3 and angular rate `0.3 / 1.32`. -/
theorem cycle_angular_rate_from_integrated_speed_witness :
    MPCWrapper.solve (fun _ => 0) (fun _ => constant_run 3 1) 0 none
        ⟨⟨0, 0⟩, (0, 0), diagonal_path⟩ =
      Except.ok (⟨⟨3 / 10, 5 / 22⟩, (3, 1), diagonal_path⟩, ⟨3 / 10, 5 / 22⟩) ∧
    ∃ pushed : PushedParams, pushed.u_prev = ((0, 0) : ℚ × ℚ) ∧
      (5 / 22 : ℚ) = ((0 : ℚ) +
          (MPCController.solve (constant_run 3 1) 0).control_input.1 * dt) *
        (MPCController.solve (constant_run 3 1) 0).control_input.2 / kL_F ∧
      (|(0 : ℚ) + (MPCController.solve (constant_run 3 1) 0).control_input.1 * dt| ≤
          kMAX_SPEED →
        (5 / 22 : ℚ) = (3 / 10 : ℚ) *
          (MPCController.solve (constant_run 3 1) 0).control_input.2 / kL_F) ∧
      kL_F = 132 / 100 :=
  ⟨MPCWrapper_solve_unclamped_example,
    cycle_angular_rate_from_integrated_speed (fun _ => 0) (fun _ => constant_run 3 1) 0 none
      ⟨⟨0, 0⟩, (0, 0), diagonal_path⟩ ⟨⟨3 / 10, 5 / 22⟩, (3, 1), diagonal_path⟩ ⟨3 / 10, 5 / 22⟩
      MPCWrapper_solve_unclamped_example⟩

/-! ## Constraint builder -/

/-- Feasibility spelled out: one conjunct per call of `subject_to`, the two loops
as quantifiers over their counters. -/
theorem feasible_iff (c : Coeffs) (p : Params) (a : Vars) :
    Feasible c p a ↔
      Constraint.state_bound.holds c p a ∧
      (Constraint.init_x.holds c p a ∧ Constraint.init_y.holds c p a ∧
        Constraint.init_psi.holds c p a ∧ Constraint.init_v.holds c p a) ∧
      (∀ i, i < c.N → (Constraint.dyn_x i).holds c p a ∧ (Constraint.dyn_y i).holds c p a ∧
        (Constraint.dyn_psi i).holds c p a ∧ (Constraint.dyn_v i).holds c p a) ∧
      (Constraint.acc_bound.holds c p a ∧ Constraint.df_bound.holds c p a) ∧
      (Constraint.acc_rate_first.holds c p a ∧ Constraint.df_rate_first.holds c p a) ∧
      (∀ i, i < c.N - 1 → (Constraint.acc_rate i).holds c p a ∧
        (Constraint.df_rate i).holds c p a) ∧
      (Constraint.sl_df_nonneg.holds c p a ∧ Constraint.sl_acc_nonneg.holds c p a) := by
  unfold Feasible addConstraints
  simp only [List.mem_append, List.mem_flatMap, List.mem_range, List.mem_cons,
    List.mem_singleton, List.not_mem_nil, or_false]
  constructor
  · intro h
    refine ⟨h _ (by simp), ⟨h _ (by simp), h _ (by simp), h _ (by simp), h _ (by simp)⟩,
      fun i hi => ⟨h _ ?_, h _ ?_, h _ ?_, h _ ?_⟩,
      ⟨h _ (by simp), h _ (by simp)⟩, ⟨h _ (by simp), h _ (by simp)⟩,
      fun i hi => ⟨h _ ?_, h _ ?_⟩, ⟨h _ (by simp), h _ (by simp)⟩⟩
    · exact Or.inl (Or.inl (Or.inl (Or.inr ⟨i, hi, by simp⟩)))
    · exact Or.inl (Or.inl (Or.inl (Or.inr ⟨i, hi, by simp⟩)))
    · exact Or.inl (Or.inl (Or.inl (Or.inr ⟨i, hi, by simp⟩)))
    · exact Or.inl (Or.inl (Or.inl (Or.inr ⟨i, hi, by simp⟩)))
    · exact Or.inl (Or.inr ⟨i, hi, by simp⟩)
    · exact Or.inl (Or.inr ⟨i, hi, by simp⟩)
  · rintro ⟨h1, ⟨h2, h3, h4, h5⟩, h6, ⟨h7, h8⟩, ⟨h9, h10⟩, h11, h12, h13⟩ k hk
    rcases hk with ((((hk | hk) | hk) | hk) | hk)
    · rcases hk with rfl | rfl | rfl | rfl | rfl <;> assumption
    · obtain ⟨i, hi, hk⟩ := hk
      obtain ⟨d1, d2, d3, d4⟩ := h6 i hi
      rcases hk with rfl | rfl | rfl | rfl <;> assumption
    · rcases hk with rfl | rfl | rfl | rfl <;> assumption
    · obtain ⟨i, hi, hk⟩ := hk
      obtain ⟨d1, d2⟩ := h11 i hi
      rcases hk with rfl | rfl <;> assumption
    · rcases hk with rfl | rfl <;> assumption

/-- The straight constant-speed rollout is feasible for the sample problem. -/
theorem cruise_feasible : Feasible sample_coeffs cruise_params cruise_vars := by
  rw [feasible_iff]
  simp only [Constraint.holds, Vars.x_dv_, Vars.y_dv_, Vars.psi_dv_, Vars.v_dv_, Vars.acc_dv_,
    Vars.df_dv_, Vars.sl_acc_dv_, Vars.sl_df_dv_, sample_coeffs, cruise_params, cruise_vars]
  norm_num
  intro i _
  ring

/-- A slack of `|prev| + |lo| + |hi|` admits the zero input after any previous
input `prev`, and a zero change after that. -/
theorem slack_covers (lo hi prev : ℝ) :
    lo - (|prev| + |lo| + |hi|) ≤ 0 - prev ∧ 0 - prev ≤ hi + (|prev| + |lo| + |hi|) ∧
    lo - (|prev| + |lo| + |hi|) ≤ 0 - 0 ∧ (0:ℝ) - 0 ≤ hi + (|prev| + |lo| + |hi|) ∧
    0 ≤ |prev| + |lo| + |hi| := by
  have h1 := abs_nonneg prev
  have h2 := abs_nonneg lo
  have h3 := abs_nonneg hi
  have h4 := le_abs_self prev
  have h5 := neg_abs_le prev
  have h6 := le_abs_self lo
  have h7 := neg_abs_le hi
  refine ⟨?_, ?_, ?_, ?_, ?_⟩ <;> linarith

/-- The zero-input rollout from the current state, with slacks large enough for
the step from the previous control to zero, satisfies every constraint. -/
theorem zero_input_feasible (c : Coeffs) (p : Params)
    (hv : c.V_MIN ≤ p.z_curr_ 3 ∧ p.z_curr_ 3 ≤ c.V_MAX)
    (hA : c.A_MIN ≤ 0 ∧ 0 ≤ c.A_MAX) (hDF : c.DF_MIN ≤ 0 ∧ 0 ≤ c.DF_MAX) :
    Feasible c p
      { z_dv_ := fun i k =>
          if k = 0 then p.z_curr_ 0 + (i : ℝ) * (c.DT * (p.z_curr_ 3 * Real.cos (p.z_curr_ 2)))
          else if k = 1 then
            p.z_curr_ 1 + (i : ℝ) * (c.DT * (p.z_curr_ 3 * Real.sin (p.z_curr_ 2)))
          else if k = 2 then p.z_curr_ 2
          else p.z_curr_ 3
        u_dv_ := fun _ _ => 0
        sl_dv_ := fun _ k =>
          if k = 0 then |p.u_prev_ 0| + |c.A_DOT_MIN * c.DT| + |c.A_DOT_MAX * c.DT|
          else |p.u_prev_ 1| + |c.DF_DOT_MIN * c.DT| + |c.DF_DOT_MAX * c.DT| } := by
  obtain ⟨a1, a2, a3, a4, a5⟩ := slack_covers (c.A_DOT_MIN * c.DT) (c.A_DOT_MAX * c.DT) (p.u_prev_ 0)
  obtain ⟨d1, d2, d3, d4, d5⟩ :=
    slack_covers (c.DF_DOT_MIN * c.DT) (c.DF_DOT_MAX * c.DT) (p.u_prev_ 1)
  rw [feasible_iff]
  simp only [Constraint.holds, Vars.x_dv_, Vars.y_dv_, Vars.psi_dv_, Vars.v_dv_, Vars.acc_dv_,
    Vars.df_dv_, Vars.sl_acc_dv_, Vars.sl_df_dv_]
  simp only [Real.tan_zero, mul_zero, Real.arctan_zero, add_zero, Real.sin_zero,
    if_true, if_false, OfNat.ofNat_ne_zero, OfNat.ofNat_ne_one, one_ne_zero,
    Nat.succ_ne_zero, Nat.cast_zero, zero_mul, Nat.cast_add, Nat.cast_one]
  norm_num
  refine ⟨fun _ _ => hv, fun i _ => ⟨by ring, by ring⟩, ⟨fun _ _ => hA, fun _ _ => hDF⟩,
    ⟨⟨by linarith, by linarith⟩, ⟨by linarith, by linarith⟩⟩,
    fun _ _ => ⟨⟨by linarith, by linarith⟩, ⟨by linarith, by linarith⟩⟩,
    fun _ _ => d5, fun _ _ => a5⟩

/-- No constraint reads the reference parameter. -/
theorem holds_reference_free (c : Coeffs) (z_curr_ u_prev_ : Nat → ℝ)
    (z_ref_ z_ref' : Nat → Nat → ℝ) (a : Vars) (k : Constraint) :
    k.holds c ⟨z_curr_, u_prev_, z_ref_⟩ a ↔ k.holds c ⟨z_curr_, u_prev_, z_ref'⟩ a := by
  cases k <;> rfl

/-- Claim C7: in every assignment that satisfies the constraints emitted by
`addConstraints`, at each step `i < N`, with
`slip = atan((L_R / (L_F + L_R)) * tan(steer_i))`, the next state is
`x + dt * speed * cos(heading + slip)`, `y + dt * speed * sin(heading + slip)`,
`heading + dt * (speed / L_R) * sin(slip)` and `speed + dt * accel`. -/
theorem addConstraints_dynamics (c : Coeffs) (p : Params) (a : Vars)
    (h : Feasible c p a) (i : Nat) (hi : i < c.N) :
    a.x_dv_ (i + 1) = a.x_dv_ i + c.DT * a.v_dv_ i *
        Real.cos (a.psi_dv_ i + Real.arctan ((c.L_R / (c.L_F + c.L_R)) * Real.tan (a.df_dv_ i))) ∧
      a.y_dv_ (i + 1) = a.y_dv_ i + c.DT * a.v_dv_ i *
        Real.sin (a.psi_dv_ i + Real.arctan ((c.L_R / (c.L_F + c.L_R)) * Real.tan (a.df_dv_ i))) ∧
      a.psi_dv_ (i + 1) = a.psi_dv_ i + c.DT * (a.v_dv_ i / c.L_R) *
        Real.sin (Real.arctan ((c.L_R / (c.L_F + c.L_R)) * Real.tan (a.df_dv_ i))) ∧
      a.v_dv_ (i + 1) = a.v_dv_ i + c.DT * a.acc_dv_ i := by
  obtain ⟨hx, hy, hpsi, hv⟩ := ((feasible_iff c p a).1 h).2.2.1 i hi
  simp only [Constraint.holds] at hx hy hpsi hv
  refine ⟨?_, ?_, ?_, hv⟩
  · rw [hx]; ring
  · rw [hy]; ring
  · rw [hpsi]; ring

/-- Claim C7, witness: the constant-speed rollout of the sample problem at
step 3. -/
theorem addConstraints_dynamics_witness :
    Feasible sample_coeffs cruise_params cruise_vars ∧ 3 < sample_coeffs.N ∧
      (cruise_vars.x_dv_ (3 + 1) = cruise_vars.x_dv_ 3 +
          sample_coeffs.DT * cruise_vars.v_dv_ 3 *
          Real.cos (cruise_vars.psi_dv_ 3 + Real.arctan
            ((sample_coeffs.L_R / (sample_coeffs.L_F + sample_coeffs.L_R)) *
              Real.tan (cruise_vars.df_dv_ 3))) ∧
        cruise_vars.y_dv_ (3 + 1) = cruise_vars.y_dv_ 3 +
          sample_coeffs.DT * cruise_vars.v_dv_ 3 *
          Real.sin (cruise_vars.psi_dv_ 3 + Real.arctan
            ((sample_coeffs.L_R / (sample_coeffs.L_F + sample_coeffs.L_R)) *
              Real.tan (cruise_vars.df_dv_ 3))) ∧
        cruise_vars.psi_dv_ (3 + 1) = cruise_vars.psi_dv_ 3 +
          sample_coeffs.DT * (cruise_vars.v_dv_ 3 / sample_coeffs.L_R) *
          Real.sin (Real.arctan
            ((sample_coeffs.L_R / (sample_coeffs.L_F + sample_coeffs.L_R)) *
              Real.tan (cruise_vars.df_dv_ 3))) ∧
        cruise_vars.v_dv_ (3 + 1) = cruise_vars.v_dv_ 3 +
          sample_coeffs.DT * cruise_vars.acc_dv_ 3) :=
  ⟨cruise_feasible, by decide,
    addConstraints_dynamics sample_coeffs cruise_params cruise_vars cruise_feasible 3
      (by decide)⟩

/-- Claim C8: every assignment that satisfies the constraints emitted by
`addConstraints` obeys the slack-relaxed rate bounds: at step 0 the change from
the previous control, and at each later step `i + 1 < N` the change from step
`i`, lies within `[RATE_MIN * dt - slack, RATE_MAX * dt + slack]` for
acceleration and for steering, with the slack of that same step; hence
`prev_accel + A_DOT_MIN * dt - slack_accel_0 <= accel_0` and
`accel_0 <= prev_accel + A_DOT_MAX * dt + slack_accel_0`. -/
theorem addConstraints_rate_bounds (c : Coeffs) (p : Params) (a : Vars)
    (h : Feasible c p a) :
    ((c.A_DOT_MIN * c.DT - a.sl_acc_dv_ 0 ≤ a.acc_dv_ 0 - p.u_prev_ 0 ∧
        a.acc_dv_ 0 - p.u_prev_ 0 ≤ c.A_DOT_MAX * c.DT + a.sl_acc_dv_ 0) ∧
      (c.DF_DOT_MIN * c.DT - a.sl_df_dv_ 0 ≤ a.df_dv_ 0 - p.u_prev_ 1 ∧
        a.df_dv_ 0 - p.u_prev_ 1 ≤ c.DF_DOT_MAX * c.DT + a.sl_df_dv_ 0)) ∧
    (∀ i, i + 1 < c.N →
      (c.A_DOT_MIN * c.DT - a.sl_acc_dv_ (i + 1) ≤ a.acc_dv_ (i + 1) - a.acc_dv_ i ∧
        a.acc_dv_ (i + 1) - a.acc_dv_ i ≤ c.A_DOT_MAX * c.DT + a.sl_acc_dv_ (i + 1)) ∧
      (c.DF_DOT_MIN * c.DT - a.sl_df_dv_ (i + 1) ≤ a.df_dv_ (i + 1) - a.df_dv_ i ∧
        a.df_dv_ (i + 1) - a.df_dv_ i ≤ c.DF_DOT_MAX * c.DT + a.sl_df_dv_ (i + 1))) ∧
    (p.u_prev_ 0 + c.A_DOT_MIN * c.DT - a.sl_acc_dv_ 0 ≤ a.acc_dv_ 0 ∧
      a.acc_dv_ 0 ≤ p.u_prev_ 0 + c.A_DOT_MAX * c.DT + a.sl_acc_dv_ 0) := by
  obtain ⟨-, -, -, -, ⟨hacc, hdf⟩, hrate, -⟩ := (feasible_iff c p a).1 h
  simp only [Constraint.holds] at hacc hdf hrate
  refine ⟨⟨hacc, hdf⟩, fun i hi => hrate i (by omega), ?_, ?_⟩
  · linarith [hacc.1]
  · linarith [hacc.2]

/-- Claim C8, witness: the constant-speed rollout of the sample problem. -/
theorem addConstraints_rate_bounds_witness :
    Feasible sample_coeffs cruise_params cruise_vars ∧
    (((sample_coeffs.A_DOT_MIN * sample_coeffs.DT - cruise_vars.sl_acc_dv_ 0 ≤
          cruise_vars.acc_dv_ 0 - cruise_params.u_prev_ 0 ∧
        cruise_vars.acc_dv_ 0 - cruise_params.u_prev_ 0 ≤
          sample_coeffs.A_DOT_MAX * sample_coeffs.DT + cruise_vars.sl_acc_dv_ 0) ∧
      (sample_coeffs.DF_DOT_MIN * sample_coeffs.DT - cruise_vars.sl_df_dv_ 0 ≤
          cruise_vars.df_dv_ 0 - cruise_params.u_prev_ 1 ∧
        cruise_vars.df_dv_ 0 - cruise_params.u_prev_ 1 ≤
          sample_coeffs.DF_DOT_MAX * sample_coeffs.DT + cruise_vars.sl_df_dv_ 0)) ∧
    (∀ i, i + 1 < sample_coeffs.N →
      (sample_coeffs.A_DOT_MIN * sample_coeffs.DT - cruise_vars.sl_acc_dv_ (i + 1) ≤
          cruise_vars.acc_dv_ (i + 1) - cruise_vars.acc_dv_ i ∧
        cruise_vars.acc_dv_ (i + 1) - cruise_vars.acc_dv_ i ≤
          sample_coeffs.A_DOT_MAX * sample_coeffs.DT + cruise_vars.sl_acc_dv_ (i + 1)) ∧
      (sample_coeffs.DF_DOT_MIN * sample_coeffs.DT - cruise_vars.sl_df_dv_ (i + 1) ≤
          cruise_vars.df_dv_ (i + 1) - cruise_vars.df_dv_ i ∧
        cruise_vars.df_dv_ (i + 1) - cruise_vars.df_dv_ i ≤
          sample_coeffs.DF_DOT_MAX * sample_coeffs.DT + cruise_vars.sl_df_dv_ (i + 1))) ∧
    (cruise_params.u_prev_ 0 + sample_coeffs.A_DOT_MIN * sample_coeffs.DT -
          cruise_vars.sl_acc_dv_ 0 ≤ cruise_vars.acc_dv_ 0 ∧
      cruise_vars.acc_dv_ 0 ≤ cruise_params.u_prev_ 0 +
          sample_coeffs.A_DOT_MAX * sample_coeffs.DT + cruise_vars.sl_acc_dv_ 0)) :=
  ⟨cruise_feasible,
    addConstraints_rate_bounds sample_coeffs cruise_params cruise_vars cruise_feasible⟩

/-- Claim C9: every assignment that satisfies the constraints emitted by
`addConstraints` has `speed_i` in `[V_MIN, V_MAX]` at every state step
`i <= N`, and `accel_i` in `[A_MIN, A_MAX]` and `steer_i` in `[DF_MIN, DF_MAX]`
at every control step `i < N`; with `A_MIN = -3`, `A_MAX = 3` and a horizon of
at least one step, the first-step acceleration is at most 3, whatever the
current state and the reference. -/
theorem addConstraints_bounds (c : Coeffs) (p : Params) (a : Vars) (h : Feasible c p a) :
    (∀ i, i ≤ c.N → c.V_MIN ≤ a.v_dv_ i ∧ a.v_dv_ i ≤ c.V_MAX) ∧
    (∀ i, i < c.N → (c.A_MIN ≤ a.acc_dv_ i ∧ a.acc_dv_ i ≤ c.A_MAX) ∧
      (c.DF_MIN ≤ a.df_dv_ i ∧ a.df_dv_ i ≤ c.DF_MAX)) ∧
    (c.A_MIN = -3 → c.A_MAX = 3 → 0 < c.N → a.acc_dv_ 0 ≤ 3) := by
  obtain ⟨hv, -, -, ⟨hacc, hdf⟩, -⟩ := (feasible_iff c p a).1 h
  simp only [Constraint.holds] at hv hacc hdf
  refine ⟨fun i hi => hv i (by omega), fun i hi => ⟨hacc i hi, hdf i hi⟩, ?_⟩
  intro _ hmax hN
  rw [← hmax]
  exact (hacc 0 hN).2

/-- Claim C9, witness: the constant-speed rollout of the sample problem, whose
acceleration bounds are `-3` and `3`. -/
theorem addConstraints_bounds_witness :
    Feasible sample_coeffs cruise_params cruise_vars ∧
    ((∀ i, i ≤ sample_coeffs.N →
        sample_coeffs.V_MIN ≤ cruise_vars.v_dv_ i ∧ cruise_vars.v_dv_ i ≤ sample_coeffs.V_MAX) ∧
    (∀ i, i < sample_coeffs.N →
      (sample_coeffs.A_MIN ≤ cruise_vars.acc_dv_ i ∧
        cruise_vars.acc_dv_ i ≤ sample_coeffs.A_MAX) ∧
      (sample_coeffs.DF_MIN ≤ cruise_vars.df_dv_ i ∧
        cruise_vars.df_dv_ i ≤ sample_coeffs.DF_MAX)) ∧
    (sample_coeffs.A_MIN = -3 → sample_coeffs.A_MAX = 3 → 0 < sample_coeffs.N →
      cruise_vars.acc_dv_ 0 ≤ 3)) :=
  ⟨cruise_feasible,
    addConstraints_bounds sample_coeffs cruise_params cruise_vars cruise_feasible⟩

/-- Claim C10: for every horizon, reference and previous control, and every
current state whose speed lies in `[V_MIN, V_MAX]`, provided
`A_MIN <= 0 <= A_MAX` and `DF_MIN <= 0 <= DF_MAX`, some assignment with
non-negative slacks satisfies every constraint emitted by `addConstraints`; and
the feasible assignments are the same for every reference. -/
theorem addConstraints_feasible (c : Coeffs) (p : Params)
    (hv : c.V_MIN ≤ p.z_curr_ 3 ∧ p.z_curr_ 3 ≤ c.V_MAX)
    (hA : c.A_MIN ≤ 0 ∧ 0 ≤ c.A_MAX) (hDF : c.DF_MIN ≤ 0 ∧ 0 ≤ c.DF_MAX) :
    (∃ a : Vars, Feasible c p a ∧ ∀ i, i < c.N → 0 ≤ a.sl_acc_dv_ i ∧ 0 ≤ a.sl_df_dv_ i) ∧
    ∀ (z_ref' : Nat → Nat → ℝ) (a : Vars),
      Feasible c ⟨p.z_curr_, p.u_prev_, z_ref'⟩ a ↔ Feasible c p a := by
  constructor
  · refine ⟨_, zero_input_feasible c p hv hA hDF, ?_⟩
    intro i hi
    obtain ⟨-, -, -, -, -, -, hsdf, hsacc⟩ :=
      (feasible_iff c p _).1 (zero_input_feasible c p hv hA hDF)
    exact ⟨hsacc i hi, hsdf i hi⟩
  · intro z_ref' a
    unfold Feasible
    exact forall₂_congr fun k _ =>
      holds_reference_free c p.z_curr_ p.u_prev_ z_ref' p.z_ref_ a k

/-- Claim C10, witness: the sample problem, whose current speed 1 lies in
`[0, 10]` and whose input bounds contain 0. -/
theorem addConstraints_feasible_witness :
    (sample_coeffs.V_MIN ≤ cruise_params.z_curr_ 3 ∧
      cruise_params.z_curr_ 3 ≤ sample_coeffs.V_MAX) ∧
    (sample_coeffs.A_MIN ≤ 0 ∧ 0 ≤ sample_coeffs.A_MAX) ∧
    (sample_coeffs.DF_MIN ≤ 0 ∧ 0 ≤ sample_coeffs.DF_MAX) ∧
    ((∃ a : Vars, Feasible sample_coeffs cruise_params a ∧
        ∀ i, i < sample_coeffs.N → 0 ≤ a.sl_acc_dv_ i ∧ 0 ≤ a.sl_df_dv_ i) ∧
      ∀ (z_ref' : Nat → Nat → ℝ) (a : Vars),
        Feasible sample_coeffs ⟨cruise_params.z_curr_, cruise_params.u_prev_, z_ref'⟩ a ↔
          Feasible sample_coeffs cruise_params a) :=
  ⟨by norm_num [sample_coeffs, cruise_params], by norm_num [sample_coeffs],
    by norm_num [sample_coeffs],
    addConstraints_feasible sample_coeffs cruise_params
      (by norm_num [sample_coeffs, cruise_params]) (by norm_num [sample_coeffs])
      (by norm_num [sample_coeffs])⟩

/-! ## Initial condition and slack sign -/

/-- Claim C11: every assignment that satisfies the constraints emitted by
`addConstraints` has its step-0 state equal to the current-state parameter in
all four channels. -/
theorem addConstraints_initial_condition (c : Coeffs) (p : Params) (a : Vars)
    (h : Feasible c p a) :
    a.x_dv_ 0 = p.z_curr_ 0 ∧ a.y_dv_ 0 = p.z_curr_ 1 ∧
      a.psi_dv_ 0 = p.z_curr_ 2 ∧ a.v_dv_ 0 = p.z_curr_ 3 :=
  ((feasible_iff c p a).1 h).2.1

/-- Claim C11, witness: the constant-speed rollout of the sample problem starts
at the current state `(0, 0, 0, 1)`. -/
theorem addConstraints_initial_condition_witness :
    Feasible sample_coeffs cruise_params cruise_vars ∧
      (cruise_vars.x_dv_ 0 = cruise_params.z_curr_ 0 ∧
        cruise_vars.y_dv_ 0 = cruise_params.z_curr_ 1 ∧
        cruise_vars.psi_dv_ 0 = cruise_params.z_curr_ 2 ∧
        cruise_vars.v_dv_ 0 = cruise_params.z_curr_ 3) :=
  ⟨cruise_feasible,
    addConstraints_initial_condition sample_coeffs cruise_params cruise_vars cruise_feasible⟩

/-- Claim C12: every assignment that satisfies the constraints emitted by
`addConstraints` has a non-negative acceleration slack and a non-negative
steering slack at every step `i < N`. -/
theorem addConstraints_slack_nonneg (c : Coeffs) (p : Params) (a : Vars)
    (h : Feasible c p a) (i : Nat) (hi : i < c.N) :
    0 ≤ a.sl_acc_dv_ i ∧ 0 ≤ a.sl_df_dv_ i := by
  obtain ⟨-, -, -, -, -, -, hdf, hacc⟩ := (feasible_iff c p a).1 h
  exact ⟨hacc i hi, hdf i hi⟩

/-- Claim C12, witness: the constant-speed rollout of the sample problem at
step 9, the last slack row. -/
theorem addConstraints_slack_nonneg_witness :
    Feasible sample_coeffs cruise_params cruise_vars ∧ 9 < sample_coeffs.N ∧
      (0 ≤ cruise_vars.sl_acc_dv_ 9 ∧ 0 ≤ cruise_vars.sl_df_dv_ 9) :=
  ⟨cruise_feasible, by decide,
    addConstraints_slack_nonneg sample_coeffs cruise_params cruise_vars cruise_feasible 9
      (by decide)⟩

/-! ## Cost builder -/

/-- A loop that adds `f i` for `i < n` to a running total ends at the start
value plus the sum of the `f i`. -/
theorem foldl_add_eq_sum (f : Nat → ℝ) (n : Nat) (start : ℝ) :
    (List.range n).foldl (fun cost i => cost + f i) start =
      start + Finset.sum (Finset.range n) f := by
  induction n with
  | zero => simp
  | succ n ih =>
    rw [List.range_succ, List.foldl_append, ih, Finset.sum_range_succ]
    simp [add_assoc]

/-- For a diagonal weight matrix the quadratic form is the weighted sum of
squares. -/
theorem quad_form_diag (n : Nat) (v z : Nat → ℝ) :
    quad_form n z (diag v) = Finset.sum (Finset.range n) fun k => v k * z k ^ 2 := by
  unfold quad_form diag
  refine Finset.sum_congr rfl fun j hj => ?_
  have hinner : (Finset.sum (Finset.range n) fun k => (if j = k then v j else 0) * z k) =
      v j * z j := by
    simp only [ite_mul, zero_mul]
    rw [Finset.sum_ite_eq (Finset.range n) j]
    simp [hj]
  rw [hinner]
  ring

/-- The objective is the three accumulated terms, each started from zero. -/
theorem addCost_split (N : Nat) (Q R : Nat → Nat → ℝ) (p : Params) (a : Vars) :
    addCost N Q R p a =
      tracking_cost N Q p a 0 + input_derivative_cost N R a 0 + slack_cost N a := by
  unfold addCost tracking_cost input_derivative_cost
  simp only [foldl_add_eq_sum, zero_add]

/-- The tracking term for diagonal weights. -/
theorem tracking_cost_diag (N : Nat) (q : Nat → ℝ) (p : Params) (a : Vars) :
    tracking_cost N (diag q) p a 0 =
      Finset.sum (Finset.range N) fun i => Finset.sum (Finset.range 4) fun k =>
        q k * (a.z_dv_ (i + 1) k - p.z_ref_ i k) ^ 2 := by
  unfold tracking_cost
  rw [foldl_add_eq_sum, zero_add]
  exact Finset.sum_congr rfl fun i _ => quad_form_diag 4 q _

/-- The control-smoothness term for diagonal weights. -/
theorem input_derivative_cost_diag (N : Nat) (r : Nat → ℝ) (a : Vars) :
    input_derivative_cost N (diag r) a 0 =
      Finset.sum (Finset.range (N - 1)) fun i => Finset.sum (Finset.range 2) fun k =>
        r k * (a.u_dv_ (i + 1) k - a.u_dv_ i k) ^ 2 := by
  unfold input_derivative_cost
  rw [foldl_add_eq_sum, zero_add]
  exact Finset.sum_congr rfl fun i _ => quad_form_diag 2 r _

/-- The slack term as one sum over the steps. -/
theorem slack_cost_eq (N : Nat) (a : Vars) :
    slack_cost N a = Finset.sum (Finset.range N) fun i => a.sl_acc_dv_ i + a.sl_df_dv_ i := by
  unfold slack_cost sum1
  rw [Finset.sum_add_distrib, add_comm]

/-- Claim C13: for diagonal weights `Q = diag q` and `R = diag r` the objective
built by `addCost` is the sum over steps `i = 1 .. N` and the four state
channels of `q_k * (state_{i,k} - reference_{i-1,k})^2`, plus the sum over
`i = 0 .. N-2` and the two control channels of
`r_c * (control_{i+1,c} - control_{i,c})^2`, plus the sum over `i = 0 .. N-1` of
`slack_accel_i + slack_steer_i`; it does not change when state step 0, the
current state or the previous control are replaced. -/
theorem addCost_eq_sums (N : Nat) (q r : Nat → ℝ) (p : Params) (a : Vars) :
    addCost N (diag q) (diag r) p a =
        (Finset.sum (Finset.range N) fun i => Finset.sum (Finset.range 4) fun k =>
          q k * (a.z_dv_ (i + 1) k - p.z_ref_ i k) ^ 2) +
        (Finset.sum (Finset.range (N - 1)) fun i => Finset.sum (Finset.range 2) fun k =>
          r k * (a.u_dv_ (i + 1) k - a.u_dv_ i k) ^ 2) +
        (Finset.sum (Finset.range N) fun i => a.sl_acc_dv_ i + a.sl_df_dv_ i) ∧
      ∀ z_curr' u_prev' row0 : Nat → ℝ,
        addCost N (diag q) (diag r) ⟨z_curr', u_prev', p.z_ref_⟩
            ⟨fun i k => if i = 0 then row0 k else a.z_dv_ i k, a.u_dv_, a.sl_dv_⟩ =
          addCost N (diag q) (diag r) p a := by
  have key : ∀ (p : Params) (a : Vars), addCost N (diag q) (diag r) p a =
        (Finset.sum (Finset.range N) fun i => Finset.sum (Finset.range 4) fun k =>
          q k * (a.z_dv_ (i + 1) k - p.z_ref_ i k) ^ 2) +
        (Finset.sum (Finset.range (N - 1)) fun i => Finset.sum (Finset.range 2) fun k =>
          r k * (a.u_dv_ (i + 1) k - a.u_dv_ i k) ^ 2) +
        (Finset.sum (Finset.range N) fun i => a.sl_acc_dv_ i + a.sl_df_dv_ i) := by
    intro p a
    rw [addCost_split, tracking_cost_diag, input_derivative_cost_diag, slack_cost_eq]
  refine ⟨key p a, ?_⟩
  intro z_curr' u_prev' row0
  rw [key, key]
  simp [Vars.sl_acc_dv_, Vars.sl_df_dv_]

/-- The tracking term is non-negative for non-negative diagonal weights. -/
theorem tracking_cost_nonneg (N : Nat) (q : Nat → ℝ) (hq : ∀ k, 0 ≤ q k) (p : Params)
    (a : Vars) : 0 ≤ tracking_cost N (diag q) p a 0 := by
  rw [tracking_cost_diag]
  exact Finset.sum_nonneg fun i _ => Finset.sum_nonneg fun k _ =>
    mul_nonneg (hq k) (sq_nonneg _)

/-- The control-smoothness term is non-negative for non-negative diagonal
weights. -/
theorem input_derivative_cost_nonneg (N : Nat) (r : Nat → ℝ) (hr : ∀ k, 0 ≤ r k)
    (a : Vars) : 0 ≤ input_derivative_cost N (diag r) a 0 := by
  rw [input_derivative_cost_diag]
  exact Finset.sum_nonneg fun i _ => Finset.sum_nonneg fun k _ =>
    mul_nonneg (hr k) (sq_nonneg _)

/-- The slack term is non-negative on feasible assignments. -/
theorem slack_cost_nonneg (c : Coeffs) (p : Params) (a : Vars) (h : Feasible c p a) :
    0 ≤ slack_cost c.N a := by
  obtain ⟨-, -, -, -, -, -, hdf, hacc⟩ := (feasible_iff c p a).1 h
  simp only [Constraint.holds] at hdf hacc
  rw [slack_cost_eq]
  exact Finset.sum_nonneg fun i hi =>
    add_nonneg (hacc i (Finset.mem_range.1 hi)) (hdf i (Finset.mem_range.1 hi))

/-- Claim C14: for non-negative diagonal weights and every assignment that
satisfies the constraints emitted by `addConstraints`, the objective built by
`addCost` is the sum of the tracking term, the control-smoothness term and the
slack term, each of which is non-negative; hence the objective is
non-negative. -/
theorem addCost_three_nonneg_terms (c : Coeffs) (q r : Nat → ℝ) (p : Params) (a : Vars)
    (hq : ∀ k, 0 ≤ q k) (hr : ∀ k, 0 ≤ r k) (h : Feasible c p a) :
    addCost c.N (diag q) (diag r) p a =
        tracking_cost c.N (diag q) p a 0 + input_derivative_cost c.N (diag r) a 0 +
          slack_cost c.N a ∧
      0 ≤ tracking_cost c.N (diag q) p a 0 ∧
      0 ≤ input_derivative_cost c.N (diag r) a 0 ∧
      0 ≤ slack_cost c.N a ∧
      0 ≤ addCost c.N (diag q) (diag r) p a := by
  have h1 := tracking_cost_nonneg c.N q hq p a
  have h2 := input_derivative_cost_nonneg c.N r hr a
  have h3 := slack_cost_nonneg c p a h
  refine ⟨addCost_split _ _ _ _ _, h1, h2, h3, ?_⟩
  rw [addCost_split]
  linarith

/-- Claim C14, witness: the constant-speed rollout of the sample problem with
unit weights. -/
theorem addCost_three_nonneg_terms_witness :
    (∀ k, 0 ≤ unit_weights k) ∧ Feasible sample_coeffs cruise_params cruise_vars ∧
      (addCost sample_coeffs.N (diag unit_weights) (diag unit_weights) cruise_params
            cruise_vars =
          tracking_cost sample_coeffs.N (diag unit_weights) cruise_params cruise_vars 0 +
            input_derivative_cost sample_coeffs.N (diag unit_weights) cruise_vars 0 +
            slack_cost sample_coeffs.N cruise_vars ∧
        0 ≤ tracking_cost sample_coeffs.N (diag unit_weights) cruise_params cruise_vars 0 ∧
        0 ≤ input_derivative_cost sample_coeffs.N (diag unit_weights) cruise_vars 0 ∧
        0 ≤ slack_cost sample_coeffs.N cruise_vars ∧
        0 ≤ addCost sample_coeffs.N (diag unit_weights) (diag unit_weights) cruise_params
          cruise_vars) :=
  ⟨fun _ => zero_le_one, cruise_feasible,
    addCost_three_nonneg_terms sample_coeffs unit_weights unit_weights cruise_params cruise_vars
      (fun _ => zero_le_one) (fun _ => zero_le_one) cruise_feasible⟩

/-- The all-zero assignment satisfies every constraint of the zero scenario when
every bound range contains 0 and the step size is non-negative. -/
theorem zero_vars_feasible (c : Coeffs) (hDT : 0 ≤ c.DT)
    (hV : c.V_MIN ≤ 0 ∧ 0 ≤ c.V_MAX) (hA : c.A_MIN ≤ 0 ∧ 0 ≤ c.A_MAX)
    (hDF : c.DF_MIN ≤ 0 ∧ 0 ≤ c.DF_MAX) (hAD : c.A_DOT_MIN ≤ 0 ∧ 0 ≤ c.A_DOT_MAX)
    (hDD : c.DF_DOT_MIN ≤ 0 ∧ 0 ≤ c.DF_DOT_MAX) :
    Feasible c zero_params zero_vars := by
  have a1 : c.A_DOT_MIN * c.DT ≤ 0 := mul_nonpos_of_nonpos_of_nonneg hAD.1 hDT
  have a2 : 0 ≤ c.A_DOT_MAX * c.DT := mul_nonneg hAD.2 hDT
  have d1 : c.DF_DOT_MIN * c.DT ≤ 0 := mul_nonpos_of_nonpos_of_nonneg hDD.1 hDT
  have d2 : 0 ≤ c.DF_DOT_MAX * c.DT := mul_nonneg hDD.2 hDT
  rw [feasible_iff]
  simp only [Constraint.holds, Vars.x_dv_, Vars.y_dv_, Vars.psi_dv_, Vars.v_dv_, Vars.acc_dv_,
    Vars.df_dv_, Vars.sl_acc_dv_, Vars.sl_df_dv_, zero_params, zero_vars]
  simp only [sub_zero, add_zero, zero_mul, mul_zero, zero_div, le_refl, implies_true,
    and_self, true_and, and_true]
  exact ⟨fun _ _ => hV, ⟨fun _ _ => hA, fun _ _ => hDF⟩, ⟨⟨a1, a2⟩, ⟨d1, d2⟩⟩,
    fun _ _ => ⟨⟨a1, a2⟩, ⟨d1, d2⟩⟩⟩

/-- The all-zero assignment has objective value 0 against the all-zero
reference. -/
theorem zero_vars_cost (N : Nat) (q r : Nat → ℝ) :
    addCost N (diag q) (diag r) zero_params zero_vars = 0 := by
  rw [addCost_split, tracking_cost_diag, input_derivative_cost_diag, slack_cost_eq]
  simp [zero_params, zero_vars, Vars.sl_acc_dv_, Vars.sl_df_dv_]

/-- A feasible assignment of the zero scenario whose objective value is at most
0 has all three terms of the objective equal to 0. -/
theorem zero_scenario_terms_vanish (c : Coeffs) (q r : Nat → ℝ)
    (hq : ∀ k, 0 ≤ q k) (hr : ∀ k, 0 ≤ r k) (a : Vars) (ha : Feasible c zero_params a)
    (hcost : addCost c.N (diag q) (diag r) zero_params a ≤ 0) :
    tracking_cost c.N (diag q) zero_params a 0 = 0 ∧
      input_derivative_cost c.N (diag r) a 0 = 0 ∧ slack_cost c.N a = 0 := by
  have h1 := tracking_cost_nonneg c.N q hq zero_params a
  have h2 := input_derivative_cost_nonneg c.N r hr a
  have h3 := slack_cost_nonneg c zero_params a ha
  rw [addCost_split] at hcost
  refine ⟨?_, ?_, ?_⟩ <;> linarith

/-- A feasible assignment of the zero scenario with objective value at most 0,
for a positive speed weight, a positive step size and at least one step: its
first-step acceleration is 0 and its first-step steering lies within the rate
window `[DF_DOT_MIN * dt, DF_DOT_MAX * dt]` around the previous steering 0. -/
theorem zero_scenario_first_step (c : Coeffs) (q r : Nat → ℝ) (hN : 1 ≤ c.N)
    (hDT : 0 < c.DT) (hq : ∀ k, 0 ≤ q k) (hr : ∀ k, 0 ≤ r k) (hq3 : 0 < q 3) (a : Vars)
    (ha : Feasible c zero_params a)
    (hcost : addCost c.N (diag q) (diag r) zero_params a ≤ 0) :
    a.acc_dv_ 0 = 0 ∧ c.DF_DOT_MIN * c.DT ≤ a.df_dv_ 0 ∧
      a.df_dv_ 0 ≤ c.DF_DOT_MAX * c.DT := by
  obtain ⟨hT, -, hL⟩ := zero_scenario_terms_vanish c q r hq hr a ha hcost
  obtain ⟨-, ⟨-, -, -, hinit⟩, hdyn, -, ⟨-, hrate⟩, -, hsdf, hsacc⟩ :=
    (feasible_iff c zero_params a).1 ha
  simp only [Constraint.holds] at hinit hrate hsdf hsacc
  have h0 : 0 < c.N := hN
  -- the speed of step 1 is 0, since the tracking term vanishes
  have hv1 : a.v_dv_ 1 = 0 := by
    rw [tracking_cost_diag] at hT
    have hstep := (Finset.sum_eq_zero_iff_of_nonneg (fun i _ =>
      Finset.sum_nonneg fun k _ => mul_nonneg (hq k) (sq_nonneg _))).1 hT 0
      (Finset.mem_range.2 h0)
    have hterm := (Finset.sum_eq_zero_iff_of_nonneg (fun k _ =>
      mul_nonneg (hq k) (sq_nonneg _))).1 hstep 3 (Finset.mem_range.2 (by norm_num))
    simp only [zero_params, sub_zero, zero_add] at hterm
    rcases mul_eq_zero.1 hterm with hq0 | hsq
    · exact absurd hq0 hq3.ne'
    · exact pow_eq_zero_iff (two_ne_zero) |>.1 hsq
  -- the slacks of step 0 are 0, since the slack term vanishes
  have hslack : a.sl_acc_dv_ 0 + a.sl_df_dv_ 0 = 0 := by
    rw [slack_cost_eq] at hL
    exact (Finset.sum_eq_zero_iff_of_nonneg (fun i hi =>
      add_nonneg (hsacc i (Finset.mem_range.1 hi)) (hsdf i (Finset.mem_range.1 hi)))).1 hL 0
      (Finset.mem_range.2 h0)
  have hsl_df : a.sl_df_dv_ 0 = 0 := by
    have := hsacc 0 h0
    have := hsdf 0 h0
    linarith
  have hstep_v := (hdyn 0 h0).2.2.2
  simp only [Constraint.holds, zero_add] at hstep_v
  refine ⟨?_, ?_, ?_⟩
  · have hv0 : a.v_dv_ 0 = 0 := by
      rw [hinit]
      rfl
    rw [hv1, hv0, zero_add] at hstep_v
    rcases mul_eq_zero.1 hstep_v.symm with hd | hacc
    · exact absurd hd hDT.ne'
    · exact hacc
  · have := hrate.1
    simp only [zero_params, sub_zero] at this
    linarith
  · have := hrate.2
    simp only [zero_params, sub_zero] at this
    linarith

/-- Claim C15, amended: in the zero scenario (zero current state, all-zero
reference, zero previous control), for every horizon of at least one step and
positive step size, in particular `N = 10` and `dt = 0.2`, with every bound range
containing 0 and non-negative diagonal weights, the all-zero assignment, whose
first-step control is `(0, 0)`, satisfies every constraint emitted by
`addConstraints`, has objective value 0, and no feasible assignment has a
smaller objective value; when the speed weight is positive, every optimum has
first-step acceleration 0 and a first-step steering within
`[DF_DOT_MIN * dt, DF_DOT_MAX * dt]`, which need not be 0. -/
theorem zero_scenario_optimum (c : Coeffs) (q r : Nat → ℝ) (hN : 1 ≤ c.N)
    (hDT : 0 < c.DT)
    (hV : c.V_MIN ≤ 0 ∧ 0 ≤ c.V_MAX) (hA : c.A_MIN ≤ 0 ∧ 0 ≤ c.A_MAX)
    (hDF : c.DF_MIN ≤ 0 ∧ 0 ≤ c.DF_MAX) (hAD : c.A_DOT_MIN ≤ 0 ∧ 0 ≤ c.A_DOT_MAX)
    (hDD : c.DF_DOT_MIN ≤ 0 ∧ 0 ≤ c.DF_DOT_MAX)
    (hq : ∀ k, 0 ≤ q k) (hr : ∀ k, 0 ≤ r k) :
    Feasible c zero_params zero_vars ∧
      addCost c.N (diag q) (diag r) zero_params zero_vars = 0 ∧
      (∀ a : Vars, Feasible c zero_params a →
        addCost c.N (diag q) (diag r) zero_params zero_vars ≤
          addCost c.N (diag q) (diag r) zero_params a) ∧
      (zero_vars.acc_dv_ 0, zero_vars.df_dv_ 0) = ((0 : ℝ), (0 : ℝ)) ∧
      (0 < q 3 → ∀ a : Vars, Feasible c zero_params a →
        (∀ a' : Vars, Feasible c zero_params a' →
          addCost c.N (diag q) (diag r) zero_params a ≤
            addCost c.N (diag q) (diag r) zero_params a') →
        a.acc_dv_ 0 = 0 ∧ c.DF_DOT_MIN * c.DT ≤ a.df_dv_ 0 ∧
          a.df_dv_ 0 ≤ c.DF_DOT_MAX * c.DT) := by
  have hfeas := zero_vars_feasible c hDT.le hV hA hDF hAD hDD
  refine ⟨hfeas, zero_vars_cost c.N q r, ?_, rfl, ?_⟩
  · intro a ha
    rw [zero_vars_cost, addCost_split]
    have h1 := tracking_cost_nonneg c.N q hq zero_params a
    have h2 := input_derivative_cost_nonneg c.N r hr a
    have h3 := slack_cost_nonneg c zero_params a ha
    linarith
  · intro hq3 a ha hopt
    have hcost := hopt zero_vars hfeas
    rw [zero_vars_cost] at hcost
    exact zero_scenario_first_step c q r hN hDT hq hr hq3 a ha hcost

/-- Claim C15, witness: the sample coefficients have `N = 10`, `dt = 0.2` and
bound ranges that contain 0; the weights are all 1, so the speed weight is
positive. -/
theorem zero_scenario_optimum_witness :
    (sample_coeffs.N = 10 ∧ sample_coeffs.DT = 0.2 ∧ 0 < unit_weights 3) ∧
    (1 ≤ sample_coeffs.N ∧ 0 < sample_coeffs.DT ∧
      (sample_coeffs.V_MIN ≤ 0 ∧ 0 ≤ sample_coeffs.V_MAX) ∧
      (sample_coeffs.A_MIN ≤ 0 ∧ 0 ≤ sample_coeffs.A_MAX) ∧
      (sample_coeffs.DF_MIN ≤ 0 ∧ 0 ≤ sample_coeffs.DF_MAX) ∧
      (sample_coeffs.A_DOT_MIN ≤ 0 ∧ 0 ≤ sample_coeffs.A_DOT_MAX) ∧
      (sample_coeffs.DF_DOT_MIN ≤ 0 ∧ 0 ≤ sample_coeffs.DF_DOT_MAX) ∧
      (∀ k, 0 ≤ unit_weights k)) ∧
    (Feasible sample_coeffs zero_params zero_vars ∧
      addCost sample_coeffs.N (diag unit_weights) (diag unit_weights) zero_params zero_vars = 0 ∧
      (∀ a : Vars, Feasible sample_coeffs zero_params a →
        addCost sample_coeffs.N (diag unit_weights) (diag unit_weights) zero_params zero_vars ≤
          addCost sample_coeffs.N (diag unit_weights) (diag unit_weights) zero_params a) ∧
      (zero_vars.acc_dv_ 0, zero_vars.df_dv_ 0) = ((0 : ℝ), (0 : ℝ)) ∧
      (0 < unit_weights 3 → ∀ a : Vars, Feasible sample_coeffs zero_params a →
        (∀ a' : Vars, Feasible sample_coeffs zero_params a' →
          addCost sample_coeffs.N (diag unit_weights) (diag unit_weights) zero_params a ≤
            addCost sample_coeffs.N (diag unit_weights) (diag unit_weights) zero_params a') →
        a.acc_dv_ 0 = 0 ∧ sample_coeffs.DF_DOT_MIN * sample_coeffs.DT ≤ a.df_dv_ 0 ∧
          a.df_dv_ 0 ≤ sample_coeffs.DF_DOT_MAX * sample_coeffs.DT)) :=
  ⟨⟨rfl, rfl, zero_lt_one⟩,
    ⟨by decide, by norm_num [sample_coeffs], by norm_num [sample_coeffs],
      by norm_num [sample_coeffs], by norm_num [sample_coeffs], by norm_num [sample_coeffs],
      by norm_num [sample_coeffs], fun _ => zero_le_one⟩,
    zero_scenario_optimum sample_coeffs unit_weights unit_weights (by decide)
      (by norm_num [sample_coeffs]) (by norm_num [sample_coeffs]) (by norm_num [sample_coeffs])
      (by norm_num [sample_coeffs]) (by norm_num [sample_coeffs]) (by norm_num [sample_coeffs])
      (fun _ => zero_le_one) (fun _ => zero_le_one)⟩

/-- The zero scenario has other minimisers than the all-zero assignment: at zero
speed the dynamics do not constrain the steering, and holding it at 0.1 (within
the sample rate bound `0.5 * 0.2`) is feasible with objective value 0. -/
theorem zero_scenario_other_minimiser :
    Feasible sample_coeffs zero_params steered_vars ∧
      addCost sample_coeffs.N (diag unit_weights) (diag unit_weights) zero_params
        steered_vars = 0 ∧
      steered_vars.df_dv_ 0 = 0.1 := by
  refine ⟨?_, ?_, ?_⟩
  · rw [feasible_iff]
    simp only [Constraint.holds, Vars.x_dv_, Vars.y_dv_, Vars.psi_dv_, Vars.v_dv_, Vars.acc_dv_,
      Vars.df_dv_, Vars.sl_acc_dv_, Vars.sl_df_dv_, zero_params, steered_vars, sample_coeffs]
    norm_num
  · rw [addCost_split, tracking_cost_diag, input_derivative_cost_diag, slack_cost_eq]
    simp [zero_params, steered_vars, Vars.sl_acc_dv_, Vars.sl_df_dv_]
  · simp [steered_vars, Vars.df_dv_]

/-- Claim C15 as stated fails: in the zero scenario with the sample coefficients
(`N = 10`, `dt = 0.2`, bound ranges containing 0) and unit weights, not every
optimum has first-step control `(0, 0)`: the assignment that stands still with
the steering held at 0.1 is feasible and no feasible assignment has a smaller
objective value, yet its first-step control is `(0, 0.1)`. -/
theorem zero_scenario_optimum_not_unique :
    sample_coeffs.N = 10 ∧ sample_coeffs.DT = 0.2 ∧
    ¬ ∀ a : Vars, Feasible sample_coeffs zero_params a →
      (∀ a' : Vars, Feasible sample_coeffs zero_params a' →
        addCost sample_coeffs.N (diag unit_weights) (diag unit_weights) zero_params a ≤
          addCost sample_coeffs.N (diag unit_weights) (diag unit_weights) zero_params a') →
      (a.acc_dv_ 0, a.df_dv_ 0) = ((0 : ℝ), (0 : ℝ)) := by
  refine ⟨rfl, rfl, ?_⟩
  intro hall
  obtain ⟨hfeas, hcost, hsteer⟩ := zero_scenario_other_minimiser
  have hmin : ∀ a' : Vars, Feasible sample_coeffs zero_params a' →
      addCost sample_coeffs.N (diag unit_weights) (diag unit_weights) zero_params
          steered_vars ≤
        addCost sample_coeffs.N (diag unit_weights) (diag unit_weights) zero_params a' := by
    intro a' ha'
    rw [hcost, addCost_split]
    have h1 := tracking_cost_nonneg sample_coeffs.N unit_weights (fun _ => zero_le_one)
      zero_params a'
    have h2 := input_derivative_cost_nonneg sample_coeffs.N unit_weights
      (fun _ => zero_le_one) a'
    have h3 := slack_cost_nonneg sample_coeffs zero_params a' ha'
    linarith
  have hpair := hall steered_vars hfeas hmin
  have hzero : steered_vars.df_dv_ 0 = 0 := (Prod.mk.inj hpair).2
  rw [hsteer] at hzero
  norm_num at hzero

/-! ## The shape of a returned reference -/

/-- A read at a natural index succeeds exactly when the path has a pose there. -/
theorem pose_at_natCast (ref_traj : Path) (i : Nat) :
    pose_at ref_traj (i : Int) =
      match ref_traj.poses.get? i with
      | some w => Except.ok w
      | none => Except.error (ReadError.outOfBounds (i : Int)) := by
  simp [pose_at]

/-- With a readable anchor, a run of the interpolation loop that returns has
read valid heading indices only and has appended, for each counter value `j`,
the samples `anchor.x + kTRAJDT * j`, `anchor.y - kTRAJDT * j` and the yaw of
path pose `j`. -/
theorem interpolate_loop_ok (yaw_of : Quaternion → ℚ) (ref_traj : Path) (n : Int)
    (anchor : PoseStamped) (ha : pose_at ref_traj n = Except.ok anchor) :
    ∀ (todo i : Nat) (xs ys psis : List ℚ) (r : List ℚ × List ℚ × List ℚ),
      interpolate_loop yaw_of ref_traj n todo i (xs, ys, psis) = Except.ok r →
      (todo = 0 ∨ i + todo ≤ ref_traj.poses.length) ∧
      r = (xs ++ (List.range' i todo).map (fun j : Nat => anchor.pose.position.x + kTRAJDT * (j : ℚ)),
        ys ++ (List.range' i todo).map (fun j : Nat => anchor.pose.position.y - kTRAJDT * (j : ℚ)),
        psis ++ (List.range' i todo).map
          (fun j : Nat =>
            yaw_of (ref_traj.poses.getD j PoseStamped.default).pose.orientation)) := by
  intro todo
  induction todo with
  | zero =>
    intro i xs ys psis r h
    simp only [interpolate_loop, Except.ok.injEq] at h
    simp [← h]
  | succ todo ih =>
    intro i xs ys psis r h
    simp only [interpolate_loop, ha, pose_at_natCast] at h
    cases hw : ref_traj.poses.get? i with
    | none => rw [hw] at h; simp at h
    | some w =>
      rw [hw] at h
      simp only [] at h
      obtain ⟨hlen, hr⟩ := ih (i + 1) _ _ _ r h
      have hi : i < ref_traj.poses.length := by
        rcases Nat.lt_or_ge i ref_traj.poses.length with hlt | hge
        · exact hlt
        · rw [List.get?_eq_none.2 hge] at hw
          exact absurd hw (by simp)
      have hw' : ref_traj.poses[i]? = some w := by
        rw [← List.get?_eq_getElem?]
        exact hw
      refine ⟨Or.inr ?_, ?_⟩
      · rcases hlen with h0 | hle
        · omega
        · omega
      · rw [hr]
        simp [List.range'_succ, hw']

/-- A reference returned by `intrpolateTraj` comes from a readable anchor on a
path of at least `kTRAJHORIZON` poses, and is made of the `kTRAJHORIZON` samples
`anchor.x + kTRAJDT * j`, `anchor.y - kTRAJDT * j`, the yaws of the first
`kTRAJHORIZON` path poses, and `kTRAJHORIZON` copies of `kTARGETSPEED`. -/
theorem intrpolateTraj_ok (yaw_of : Quaternion → ℚ) (ref_traj : Path)
    (curr_robot_pose : PoseStamped) (ref : List (List ℚ))
    (h : intrpolateTraj yaw_of ref_traj curr_robot_pose = Except.ok ref) :
    ∃ anchor : PoseStamped,
      pose_at ref_traj (calculate_nearest_state_index ref_traj curr_robot_pose) =
        Except.ok anchor ∧
      kTRAJHORIZON ≤ ref_traj.poses.length ∧
      ref = [(List.range kTRAJHORIZON).map
          (fun j : Nat => anchor.pose.position.x + kTRAJDT * (j : ℚ)),
        (List.range kTRAJHORIZON).map
          (fun j : Nat => anchor.pose.position.y - kTRAJDT * (j : ℚ)),
        (List.range kTRAJHORIZON).map
          (fun j : Nat =>
            yaw_of (ref_traj.poses.getD j PoseStamped.default).pose.orientation),
        List.replicate kTRAJHORIZON kTARGETSPEED] := by
  unfold intrpolateTraj at h
  dsimp only at h
  cases ha : pose_at ref_traj (calculate_nearest_state_index ref_traj curr_robot_pose) with
  | error e =>
    simp [kTRAJHORIZON, interpolate_loop, ha] at h
  | ok anchor =>
    cases hl : interpolate_loop yaw_of ref_traj
        (calculate_nearest_state_index ref_traj curr_robot_pose) kTRAJHORIZON 0 ([], [], []) with
    | error e => rw [hl] at h; simp at h
    | ok r =>
      rw [hl] at h
      obtain ⟨hlen, hr⟩ := interpolate_loop_ok yaw_of ref_traj _ anchor ha _ _ _ _ _ _ hl
      refine ⟨anchor, rfl, ?_, ?_⟩
      · rcases hlen with h0 | hle
        · exact absurd h0 (by decide)
        · simpa using hle
      · subst hr
        simp only [Except.ok.injEq] at h
        rw [← h]
        simp [List.range_eq_range']

/-- The reference interpolated on the diagonal path from the default pose. -/
theorem intrpolateTraj_diagonal_value :
    intrpolateTraj (fun _ => 0) diagonal_path PoseStamped.default =
      Except.ok diagonal_reference := by
  simp [intrpolateTraj, nearest_diagonal, kTRAJHORIZON, interpolate_loop, pose_at]
  simp [diagonal_path, diagonal_reference, PoseStamped.atXY, kTRAJDT, kTARGETSPEED]
  norm_num

/-- The nearest waypoint of the x-axis path from the default pose is the first
one. -/
theorem nearest_x_axis :
    calculate_nearest_state_index x_axis_path PoseStamped.default = 0 := by
  simp [calculate_nearest_state_index, x_axis_path, nearest_loop, sq_distance, sqrt_lt_int,
    sqrt_to_int, PoseStamped.atXY, PoseStamped.default]

/-- The reference interpolated on the x-axis path from the default pose. -/
theorem intrpolateTraj_x_axis_value :
    intrpolateTraj (fun _ => 0) x_axis_path PoseStamped.default =
      Except.ok x_axis_reference := by
  simp [intrpolateTraj, nearest_x_axis, kTRAJHORIZON, interpolate_loop, pose_at]
  simp [x_axis_path, x_axis_reference, PoseStamped.atXY, kTRAJDT, kTARGETSPEED]
  norm_num

/-- Entry `i < n` of a list built by mapping `f` over `0 .. n-1` is `f i`. -/
theorem getD_map_range (f : Nat → ℚ) (n i : Nat) (hi : i < n) :
    ((List.range n).map f).getD i 0 = f i := by
  simp [List.getD_eq_getElem?_getD, List.getElem?_map, List.getElem?_range hi]

/-- Claim C16: every reference returned by `intrpolateTraj` has four channels of
exactly `kTRAJHORIZON = 10` entries each, whatever the number of waypoints of
the path (which is at least 10 when a reference is returned), and every entry of
the speed channel is `kTARGETSPEED = 1`. -/
theorem intrpolateTraj_shape (yaw_of : Quaternion → ℚ) (ref_traj : Path)
    (curr_robot_pose : PoseStamped) (ref : List (List ℚ))
    (h : intrpolateTraj yaw_of ref_traj curr_robot_pose = Except.ok ref) :
    ref.length = 4 ∧
      (∀ channel, channel < 4 → (ref.getD channel []).length = kTRAJHORIZON) ∧
      ref.getD 3 [] = List.replicate kTRAJHORIZON kTARGETSPEED ∧
      (∀ i, i < kTRAJHORIZON → ref_sample ref 3 i = kTARGETSPEED) ∧
      kTRAJHORIZON ≤ ref_traj.poses.length ∧ kTRAJHORIZON = 10 ∧ kTARGETSPEED = 1 := by
  obtain ⟨anchor, -, hlen, rfl⟩ := intrpolateTraj_ok yaw_of ref_traj curr_robot_pose ref h
  refine ⟨rfl, ?_, rfl, ?_, hlen, rfl, rfl⟩
  · intro channel hc
    interval_cases channel <;> simp
  · intro i hi
    simp [ref_sample, List.getD_eq_getElem?_getD, List.getElem?_replicate, hi]

/-- Claim C16, witness: the reference interpolated on the diagonal path. -/
theorem intrpolateTraj_shape_witness :
    intrpolateTraj (fun _ => 0) diagonal_path PoseStamped.default =
        Except.ok diagonal_reference ∧
      (diagonal_reference.length = 4 ∧
        (∀ channel, channel < 4 → (diagonal_reference.getD channel []).length = kTRAJHORIZON) ∧
        diagonal_reference.getD 3 [] = List.replicate kTRAJHORIZON kTARGETSPEED ∧
        (∀ i, i < kTRAJHORIZON → ref_sample diagonal_reference 3 i = kTARGETSPEED) ∧
        kTRAJHORIZON ≤ diagonal_path.poses.length ∧ kTRAJHORIZON = 10 ∧ kTARGETSPEED = 1) :=
  ⟨intrpolateTraj_diagonal_value,
    intrpolateTraj_shape (fun _ => 0) diagonal_path PoseStamped.default diagonal_reference
      intrpolateTraj_diagonal_value⟩

/-- The position samples of a returned reference: sample `i` is the anchor
displaced by `kTRAJDT * i` in x and by `-kTRAJDT * i` in y. -/
theorem intrpolateTraj_positions (yaw_of : Quaternion → ℚ) (ref_traj : Path)
    (curr_robot_pose : PoseStamped) (ref : List (List ℚ))
    (h : intrpolateTraj yaw_of ref_traj curr_robot_pose = Except.ok ref) :
    ∃ anchor : PoseStamped,
      pose_at ref_traj (calculate_nearest_state_index ref_traj curr_robot_pose) =
        Except.ok anchor ∧
      ∀ i, i < kTRAJHORIZON →
        ref_sample ref 0 i = anchor.pose.position.x + kTRAJDT * (i : ℚ) ∧
        ref_sample ref 1 i = anchor.pose.position.y - kTRAJDT * (i : ℚ) := by
  obtain ⟨anchor, ha, -, rfl⟩ := intrpolateTraj_ok yaw_of ref_traj curr_robot_pose ref h
  refine ⟨anchor, ha, fun i hi => ⟨?_, ?_⟩⟩
  · simp only [ref_sample, List.getD_cons_zero]
    exact getD_map_range _ _ _ hi
  · simp only [ref_sample, List.getD_cons_succ, List.getD_cons_zero]
    exact getD_map_range _ _ _ hi

/-- Claim C18 as stated fails: on the x-axis path, whose anchor `(1, 0)` has the
successor `(2, 0)`, the step from sample 0 to sample 1 is `(0.3, -0.3)`, which is
no positive multiple of the direction `(1, 0)` from the anchor to its
successor. -/
theorem intrpolateTraj_step_not_along_path :
    intrpolateTraj (fun _ => 0) x_axis_path PoseStamped.default =
        Except.ok x_axis_reference ∧
      pose_at x_axis_path (calculate_nearest_state_index x_axis_path PoseStamped.default) =
        Except.ok (PoseStamped.atXY 1 0) ∧
      pose_at x_axis_path (calculate_nearest_state_index x_axis_path PoseStamped.default + 1) =
        Except.ok (PoseStamped.atXY 2 0) ∧
      ¬ ∃ t : ℚ, 0 < t ∧
        ref_sample x_axis_reference 0 1 - ref_sample x_axis_reference 0 0 = t * (2 - 1) ∧
        ref_sample x_axis_reference 1 1 - ref_sample x_axis_reference 1 0 = t * (0 - 0) := by
  refine ⟨intrpolateTraj_x_axis_value, ?_, ?_, ?_⟩
  · rw [nearest_x_axis]
    simp [pose_at, x_axis_path]
  · rw [nearest_x_axis]
    simp [pose_at, x_axis_path]
  · rintro ⟨t, -, -, hy⟩
    simp [ref_sample, x_axis_reference] at hy

/-- Claim C18, amended: in every reference returned by `intrpolateTraj` each
step from sample `i` to sample `i + 1` is the same vector
`(kTRAJDT, -kTRAJDT) = (0.3, -0.3)`, whatever the path; for a successor of the
anchor in direction `(dx, dy)`, that step is a positive multiple of the
direction exactly when `dx > 0` and `dy = -dx`, the diagonal of the built-in
test trajectory. -/
theorem intrpolateTraj_fixed_step (yaw_of : Quaternion → ℚ) (ref_traj : Path)
    (curr_robot_pose : PoseStamped) (ref : List (List ℚ))
    (h : intrpolateTraj yaw_of ref_traj curr_robot_pose = Except.ok ref) :
    (∀ i, i + 1 < kTRAJHORIZON →
      ref_sample ref 0 (i + 1) - ref_sample ref 0 i = kTRAJDT ∧
      ref_sample ref 1 (i + 1) - ref_sample ref 1 i = -kTRAJDT) ∧
    (∀ anchor successor : PoseStamped,
      pose_at ref_traj (calculate_nearest_state_index ref_traj curr_robot_pose) =
        Except.ok anchor →
      pose_at ref_traj (calculate_nearest_state_index ref_traj curr_robot_pose + 1) =
        Except.ok successor →
      ((∃ t : ℚ, 0 < t ∧
          kTRAJDT = t * (successor.pose.position.x - anchor.pose.position.x) ∧
          -kTRAJDT = t * (successor.pose.position.y - anchor.pose.position.y)) ↔
        (0 < successor.pose.position.x - anchor.pose.position.x ∧
          successor.pose.position.y - anchor.pose.position.y =
            -(successor.pose.position.x - anchor.pose.position.x)))) ∧
    kTRAJDT = 3 / 10 := by
  obtain ⟨anchor, ha, hpos⟩ := intrpolateTraj_positions yaw_of ref_traj curr_robot_pose ref h
  refine ⟨?_, ?_, rfl⟩
  · intro i hi
    obtain ⟨hx0, hy0⟩ := hpos i (by omega)
    obtain ⟨hx1, hy1⟩ := hpos (i + 1) hi
    rw [hx0, hy0, hx1, hy1]
    push_cast
    constructor <;> ring
  · intro anchor' successor _ _
    have hk : (0 : ℚ) < kTRAJDT := by norm_num [kTRAJDT]
    constructor
    · rintro ⟨t, ht, hx, hy⟩
      have hdx : 0 < successor.pose.position.x - anchor'.pose.position.x := by
        by_contra hneg
        push_neg at hneg
        have := mul_nonpos_of_nonneg_of_nonpos ht.le hneg
        linarith
      refine ⟨hdx, ?_⟩
      have hsum : t * ((successor.pose.position.y - anchor'.pose.position.y) +
          (successor.pose.position.x - anchor'.pose.position.x)) = 0 := by
        rw [mul_add, ← hx, ← hy]
        ring
      rcases mul_eq_zero.1 hsum with h0 | h0
      · exact absurd h0 ht.ne'
      · linarith
    · rintro ⟨hdx, hdy⟩
      refine ⟨kTRAJDT / (successor.pose.position.x - anchor'.pose.position.x),
        div_pos hk hdx, ?_, ?_⟩
      · field_simp
      · rw [hdy]
        field_simp
        ring

/-- Claim C18, witness: the reference interpolated on the diagonal path. -/
theorem intrpolateTraj_fixed_step_witness :
    intrpolateTraj (fun _ => 0) diagonal_path PoseStamped.default =
        Except.ok diagonal_reference ∧
    ((∀ i, i + 1 < kTRAJHORIZON →
      ref_sample diagonal_reference 0 (i + 1) - ref_sample diagonal_reference 0 i = kTRAJDT ∧
      ref_sample diagonal_reference 1 (i + 1) - ref_sample diagonal_reference 1 i = -kTRAJDT) ∧
    (∀ anchor successor : PoseStamped,
      pose_at diagonal_path (calculate_nearest_state_index diagonal_path PoseStamped.default) =
        Except.ok anchor →
      pose_at diagonal_path
          (calculate_nearest_state_index diagonal_path PoseStamped.default + 1) =
        Except.ok successor →
      ((∃ t : ℚ, 0 < t ∧
          kTRAJDT = t * (successor.pose.position.x - anchor.pose.position.x) ∧
          -kTRAJDT = t * (successor.pose.position.y - anchor.pose.position.y)) ↔
        (0 < successor.pose.position.x - anchor.pose.position.x ∧
          successor.pose.position.y - anchor.pose.position.y =
            -(successor.pose.position.x - anchor.pose.position.x)))) ∧
    kTRAJDT = 3 / 10) :=
  ⟨intrpolateTraj_diagonal_value,
    intrpolateTraj_fixed_step (fun _ => 0) diagonal_path PoseStamped.default
      diagonal_reference intrpolateTraj_diagonal_value⟩

/-- Claim C19: in every reference returned by `intrpolateTraj`, for every
`i < kTRAJHORIZON` the heading sample `i` is the yaw of the orientation stored in
the path pose at index `i` counted from the start of the path; the heading
channel does not depend on the current pose: every reference returned on the
same path has the same heading channel. -/
theorem intrpolateTraj_heading_by_loop_index (yaw_of : Quaternion → ℚ) (ref_traj : Path)
    (curr_robot_pose : PoseStamped) (ref : List (List ℚ))
    (h : intrpolateTraj yaw_of ref_traj curr_robot_pose = Except.ok ref) :
    (∀ i, i < kTRAJHORIZON → ∃ w : PoseStamped,
      ref_traj.poses.get? i = some w ∧ ref_sample ref 2 i = yaw_of w.pose.orientation) ∧
    (∀ (other_pose : PoseStamped) (ref' : List (List ℚ)),
      intrpolateTraj yaw_of ref_traj other_pose = Except.ok ref' →
        ref'.getD 2 [] = ref.getD 2 []) := by
  obtain ⟨anchor, -, hlen, rfl⟩ := intrpolateTraj_ok yaw_of ref_traj curr_robot_pose ref h
  constructor
  · intro i hi
    have hlt : i < ref_traj.poses.length := lt_of_lt_of_le hi hlen
    refine ⟨ref_traj.poses.get ⟨i, hlt⟩, List.get?_eq_get hlt, ?_⟩
    simp only [ref_sample, List.getD_cons_succ, List.getD_cons_zero]
    rw [getD_map_range _ _ _ hi]
    simp [List.getD_eq_getElem?_getD, List.getElem?_eq_getElem hlt]
  · intro other_pose ref' h'
    obtain ⟨anchor', -, -, rfl⟩ := intrpolateTraj_ok yaw_of ref_traj other_pose ref' h'
    rfl

/-- Claim C19, witness: the reference interpolated on the diagonal path. -/
theorem intrpolateTraj_heading_by_loop_index_witness :
    intrpolateTraj (fun _ => 0) diagonal_path PoseStamped.default =
        Except.ok diagonal_reference ∧
    ((∀ i, i < kTRAJHORIZON → ∃ w : PoseStamped,
      diagonal_path.poses.get? i = some w ∧
        ref_sample diagonal_reference 2 i = (fun _ => (0 : ℚ)) w.pose.orientation) ∧
    (∀ (other_pose : PoseStamped) (ref' : List (List ℚ)),
      intrpolateTraj (fun _ => 0) diagonal_path other_pose = Except.ok ref' →
        ref'.getD 2 [] = diagonal_reference.getD 2 [])) :=
  ⟨intrpolateTraj_diagonal_value,
    intrpolateTraj_heading_by_loop_index (fun _ => 0) diagonal_path PoseStamped.default
      diagonal_reference intrpolateTraj_diagonal_value⟩

/-! ## Tie-breaking of the nearest-waypoint search -/

/-- The squared distance is non-negative. -/
theorem sq_distance_nonneg (w pose : PoseStamped) : 0 ≤ sq_distance w pose := by
  unfold sq_distance
  positivity

/-- The loop invariant of the search. After the poses `pre` have been visited,
the stored `int` distance is at most the distance of every visited waypoint, and
the stored index is `-1` or the index of a visited waypoint strictly closer than
every waypoint before it. The invariant holds again when the loop has run over
the remaining poses. -/
theorem nearest_loop_invariant (pose : PoseStamped) :
    ∀ (rest pre : List PoseStamped) (idx c : Int),
      (∀ w ∈ pre, (c : ℝ) ≤ Real.sqrt ((sq_distance w pose : ℚ) : ℝ)) →
      (idx = -1 ∨ ∃ k : Nat, idx = (k : Int) ∧ k < pre.length ∧
        ∀ j wj wk, j < k → pre[j]? = some wj → pre[k]? = some wk →
          sq_distance wk pose < sq_distance wj pose) →
      (∀ w ∈ pre ++ rest,
        (((nearest_loop pose rest (pre.length : Int) (idx, c)).2 : Int) : ℝ) ≤
          Real.sqrt ((sq_distance w pose : ℚ) : ℝ)) ∧
      ((nearest_loop pose rest (pre.length : Int) (idx, c)).1 = -1 ∨
        ∃ k : Nat, (nearest_loop pose rest (pre.length : Int) (idx, c)).1 = (k : Int) ∧
          k < (pre ++ rest).length ∧
          ∀ j wj wk, j < k → (pre ++ rest)[j]? = some wj → (pre ++ rest)[k]? = some wk →
            sq_distance wk pose < sq_distance wj pose) := by
  intro rest
  induction rest with
  | nil =>
    intro pre idx c ha hb
    simpa [nearest_loop] using And.intro ha hb
  | cons w rest ih =>
    intro pre idx c ha hb
    have hlen : ((pre.length : Int) + 1) = (((pre ++ [w]).length : Nat) : Int) := by
      simp
    have happ : pre ++ w :: rest = (pre ++ [w]) ++ rest := by simp
    rw [happ]
    unfold nearest_loop
    dsimp only
    by_cases hlt : sqrt_lt_int (sq_distance w pose) c = true
    · rw [if_pos hlt, hlen]
      have hreal := (sqrt_lt_int_iff _ _).1 hlt
      have hfloor : ((sqrt_to_int (sq_distance w pose) : Int) : ℝ) ≤
          Real.sqrt ((sq_distance w pose : ℚ) : ℝ) := by
        rw [sqrt_to_int_eq]
        exact Int.floor_le _
      apply ih
      · intro w' hw'
        rcases List.mem_append.1 hw' with hpre | hw
        · exact le_trans hfloor (le_trans hreal.le (ha w' hpre))
        · rw [List.mem_singleton.1 hw]
          exact hfloor
      · refine Or.inr ⟨pre.length, rfl, by simp, ?_⟩
        intro j wj wk hj hwj hwk
        rw [List.getElem?_append_left hj] at hwj
        have hk : wk = w := by
          simpa using hwk.symm
        subst hk
        have hmem : wj ∈ pre := List.getElem?_mem hwj
        have h1 : Real.sqrt ((sq_distance wk pose : ℚ) : ℝ) <
            Real.sqrt ((sq_distance wj pose : ℚ) : ℝ) := lt_of_lt_of_le hreal (ha wj hmem)
        have h0 : (0 : ℝ) ≤ ((sq_distance wk pose : ℚ) : ℝ) := by
          exact_mod_cast sq_distance_nonneg wk pose
        have h2 := (Real.sqrt_lt_sqrt_iff h0).1 h1
        exact_mod_cast h2
    · rw [if_neg hlt, hlen]
      have hreal : ¬ Real.sqrt ((sq_distance w pose : ℚ) : ℝ) < (c : ℝ) := fun hcon =>
        hlt ((sqrt_lt_int_iff _ _).2 hcon)
      apply ih
      · intro w' hw'
        rcases List.mem_append.1 hw' with hpre | hw
        · exact ha w' hpre
        · rw [List.mem_singleton.1 hw]
          exact not_lt.1 hreal
      · rcases hb with hneg | ⟨k, hk, hklen, hbest⟩
        · exact Or.inl hneg
        · refine Or.inr ⟨k, hk, by simp; omega, ?_⟩
          intro j wj wk hj hwj hwk
          rw [List.getElem?_append_left (lt_trans hj hklen)] at hwj
          rw [List.getElem?_append_left hklen] at hwk
          exact hbest j wj wk hj hwj hwk

/-- Claim C20: for every path and pose, if `calculate_nearest_state_index`
returns an index `k >= 0`, then `k` is an index of the path and every waypoint
at an index `j < k` is strictly farther from the pose than waypoint `k`, so none
of them is at the same distance: among equidistant waypoints the first one wins.
The result is a function of the path and pose alone. -/
theorem calculate_nearest_state_index_first_wins (reference_traj : Path)
    (curr_robot_pose : PoseStamped) (k : Nat)
    (hk : calculate_nearest_state_index reference_traj curr_robot_pose = (k : Int)) :
    k < reference_traj.poses.length ∧
      (∀ j wj wk, j < k → reference_traj.poses.get? j = some wj →
        reference_traj.poses.get? k = some wk →
          sq_distance wk curr_robot_pose < sq_distance wj curr_robot_pose ∧
          Real.sqrt ((sq_distance wj curr_robot_pose : ℚ) : ℝ) ≠
            Real.sqrt ((sq_distance wk curr_robot_pose : ℚ) : ℝ)) ∧
      (∀ k' : Int, calculate_nearest_state_index reference_traj curr_robot_pose = k' →
        k' = (k : Int)) := by
  have hinv := (nearest_loop_invariant curr_robot_pose reference_traj.poses [] (-1) 10000
    (by simp) (Or.inl rfl)).2
  simp only [List.nil_append, List.length_nil, Nat.cast_zero] at hinv
  unfold calculate_nearest_state_index at hk
  rw [hk] at hinv
  rcases hinv with hneg | ⟨k', hk', hlen, hbest⟩
  · omega
  · have hkk : k = k' := by exact_mod_cast hk'
    subst hkk
    refine ⟨hlen, ?_, ?_⟩
    · intro j wj wk hj hwj hwk
      rw [List.get?_eq_getElem?] at hwj hwk
      have hlt := hbest j wj wk hj hwj hwk
      refine ⟨hlt, ?_⟩
      have h0 : (0 : ℝ) ≤ ((sq_distance wk curr_robot_pose : ℚ) : ℝ) := by
        exact_mod_cast sq_distance_nonneg wk curr_robot_pose
      have hlt' : ((sq_distance wk curr_robot_pose : ℚ) : ℝ) <
          ((sq_distance wj curr_robot_pose : ℚ) : ℝ) := by exact_mod_cast hlt
      exact (Real.sqrt_lt_sqrt h0 hlt').ne'
    · intro k'' hk''
      unfold calculate_nearest_state_index at hk''
      rw [← hk'', hk]

/-- The search on the tie path from the origin returns index 1, the first of the
two waypoints at distance 1. -/
theorem nearest_tie_path :
    calculate_nearest_state_index tie_path (PoseStamped.atXY 0 0) = ((1 : Nat) : Int) := by
  have h4 : sqrt_to_int 4 = 2 := by
    have h : ⌊(4 : ℚ)⌋₊ = 4 := by simp
    have h2 : Nat.sqrt 4 = 2 := by
      symm
      rw [Nat.eq_sqrt]
      norm_num
    simp [sqrt_to_int, h, h2]
  simp [calculate_nearest_state_index, tie_path, nearest_loop, sq_distance, sqrt_lt_int,
    PoseStamped.atXY]
  norm_num [h4, sqrt_to_int]

/-- Claim C20, witness: on the tie path the waypoints 1 and 2 are both at
distance 1 of the origin and the search returns 1. -/
theorem calculate_nearest_state_index_first_wins_witness :
    calculate_nearest_state_index tie_path (PoseStamped.atXY 0 0) = ((1 : Nat) : Int) ∧
    (1 < tie_path.poses.length ∧
      (∀ j wj wk, j < 1 → tie_path.poses.get? j = some wj →
        tie_path.poses.get? 1 = some wk →
          sq_distance wk (PoseStamped.atXY 0 0) < sq_distance wj (PoseStamped.atXY 0 0) ∧
          Real.sqrt ((sq_distance wj (PoseStamped.atXY 0 0) : ℚ) : ℝ) ≠
            Real.sqrt ((sq_distance wk (PoseStamped.atXY 0 0) : ℚ) : ℝ)) ∧
      (∀ k' : Int, calculate_nearest_state_index tie_path (PoseStamped.atXY 0 0) = k' →
        k' = ((1 : Nat) : Int))) :=
  ⟨nearest_tie_path,
    calculate_nearest_state_index_first_wins tie_path (PoseStamped.atXY 0 0) 1
      nearest_tie_path⟩

/-! ## Previous-control hand-over and the unavailable pose -/

/-- A cycle on the diagonal path with the pose unavailable emits a command, for
every solver: the solver is run on parameters that carry the stored previous
control and the default pose. -/
theorem MPCWrapper_solve_diagonal_opti (yaw_of : Quaternion → ℚ)
    (opti : PushedParams → OptiRun) (execution_time : Int) (twist_ : Twist) (prev : ℚ × ℚ) :
    ∃ pushed : PushedParams, pushed.u_prev = prev ∧
      MPCWrapper.solve yaw_of opti execution_time none ⟨twist_, prev, diagonal_path⟩ =
        Except.ok
          (⟨apply_control twist_ (MPCController.solve (opti pushed) execution_time),
            (MPCController.solve (opti pushed) execution_time).control_input, diagonal_path⟩,
          apply_control twist_ (MPCController.solve (opti pushed) execution_time)) := by
  obtain ⟨r, hr⟩ := intrpolateTraj_diagonal yaw_of
  refine ⟨⟨(0, 0, yaw_of PoseStamped.default.pose.orientation, 1),
    (r.getD 0 [], r.getD 1 [], r.getD 2 [], r.getD 3 []), prev⟩, rfl, ?_⟩
  simp only [MPCWrapper.solve, Option.getD_none, hr]
  rfl

/-- The first cycle of a fresh wrapper on the diagonal path with the throwing
solver `echo_fallback`: the fallback control `(1, 2)` is stored. -/
theorem MPCWrapper_solve_first_cycle :
    MPCWrapper.solve (fun _ => 0) echo_fallback 0 none (MPCWrapper.initial diagonal_path) =
      Except.ok (⟨⟨1 / 10, 5 / 33⟩, (1, 2), diagonal_path⟩, ⟨1 / 10, 5 / 33⟩) := by
  obtain ⟨pushed, hp, h⟩ :=
    MPCWrapper_solve_diagonal_opti (fun _ => 0) echo_fallback 0 ⟨0, 0⟩ (0, 0)
  have hres : MPCController.solve (echo_fallback pushed) 0 = ⟨0, false, (1, 2)⟩ := by
    simp [MPCController.solve, echo_fallback, hp]
  have happ : apply_control ⟨0, 0⟩ ⟨0, false, (1, 2)⟩ = ⟨1 / 10, 5 / 33⟩ := by
    simp [apply_control, regulate_max_speed, dt, kL_F, kMAX_SPEED]
    norm_num
  rw [hres, happ] at h
  exact h

/-- The second cycle: the solver is given the stored `(1, 2)` and its fallback
control `(2, 4)` is stored in turn. -/
theorem MPCWrapper_solve_second_cycle :
    MPCWrapper.solve (fun _ => 0) echo_fallback 0 none
        ⟨⟨1 / 10, 5 / 33⟩, (1, 2), diagonal_path⟩ =
      Except.ok (⟨⟨3 / 10, 10 / 11⟩, (2, 4), diagonal_path⟩, ⟨3 / 10, 10 / 11⟩) := by
  obtain ⟨pushed, hp, h⟩ :=
    MPCWrapper_solve_diagonal_opti (fun _ => 0) echo_fallback 0 ⟨1 / 10, 5 / 33⟩ (1, 2)
  have hres : MPCController.solve (echo_fallback pushed) 0 = ⟨0, false, (2, 4)⟩ := by
    simp [MPCController.solve, echo_fallback, hp]
    norm_num
  have happ : apply_control ⟨1 / 10, 5 / 33⟩ ⟨0, false, (2, 4)⟩ = ⟨3 / 10, 10 / 11⟩ := by
    simp [apply_control, regulate_max_speed, dt, kL_F, kMAX_SPEED]
    norm_num
  rw [hres, happ] at h
  exact h

/-- Claim C21: after a control cycle the stored previous control is exactly the
control returned by that cycle's solve, for every solver outcome (solution or
working point after a throw); the next cycle runs its solve on parameters whose
previous control is exactly that stored pair; a freshly constructed wrapper
stores the neutral `(0, 0)`. -/
theorem previous_control_handover (yaw_of : Quaternion → ℚ) (opti : PushedParams → OptiRun)
    (time1 time2 : Int) (lookup1 lookup2 : Option PoseStamped) (w w1 w2 : MPCWrapper)
    (cmd1 cmd2 : Twist)
    (h1 : MPCWrapper.solve yaw_of opti time1 lookup1 w = Except.ok (w1, cmd1))
    (h2 : MPCWrapper.solve yaw_of opti time2 lookup2 w1 = Except.ok (w2, cmd2)) :
    (∃ pushed1 : PushedParams, pushed1.u_prev = w.previous_control_ ∧
      w1.previous_control_ = (MPCController.solve (opti pushed1) time1).control_input) ∧
    (∃ pushed2 : PushedParams, pushed2.u_prev = w1.previous_control_ ∧
      cmd2 = apply_control w1.twist_ (MPCController.solve (opti pushed2) time2) ∧
      w2.previous_control_ = (MPCController.solve (opti pushed2) time2).control_input) ∧
    (∀ reference_traj_ : Path,
      (MPCWrapper.initial reference_traj_).previous_control_ = (0, 0)) := by
  obtain ⟨p1, hp1, -, hw1⟩ := MPCWrapper_solve_ok yaw_of opti time1 lookup1 w w1 cmd1 h1
  obtain ⟨p2, hp2, hc2, hw2⟩ := MPCWrapper_solve_ok yaw_of opti time2 lookup2 w1 w2 cmd2 h2
  refine ⟨⟨p1, hp1, ?_⟩, ⟨p2, hp2, hc2, ?_⟩, fun _ => rfl⟩
  · rw [hw1]
  · rw [hw2]

/-- Claim C21, witness: two cycles of a fresh wrapper on the diagonal path with a
solver that always throws; the fallback control `(1, 2)` of the first cycle is
the previous control of the second, whose fallback control is `(2, 4)`. -/
theorem previous_control_handover_witness :
    MPCWrapper.solve (fun _ => 0) echo_fallback 0 none (MPCWrapper.initial diagonal_path) =
      Except.ok (⟨⟨1 / 10, 5 / 33⟩, (1, 2), diagonal_path⟩, ⟨1 / 10, 5 / 33⟩) ∧
    MPCWrapper.solve (fun _ => 0) echo_fallback 0 none
        ⟨⟨1 / 10, 5 / 33⟩, (1, 2), diagonal_path⟩ =
      Except.ok (⟨⟨3 / 10, 10 / 11⟩, (2, 4), diagonal_path⟩, ⟨3 / 10, 10 / 11⟩) ∧
    ((∃ pushed1 : PushedParams,
        pushed1.u_prev = (MPCWrapper.initial diagonal_path).previous_control_ ∧
        ((1, 2) : ℚ × ℚ) = (MPCController.solve (echo_fallback pushed1) 0).control_input) ∧
      (∃ pushed2 : PushedParams, pushed2.u_prev = ((1, 2) : ℚ × ℚ) ∧
        (⟨3 / 10, 10 / 11⟩ : Twist) =
          apply_control ⟨1 / 10, 5 / 33⟩ (MPCController.solve (echo_fallback pushed2) 0) ∧
        ((2, 4) : ℚ × ℚ) = (MPCController.solve (echo_fallback pushed2) 0).control_input) ∧
      (∀ reference_traj_ : Path,
        (MPCWrapper.initial reference_traj_).previous_control_ = (0, 0))) :=
  ⟨MPCWrapper_solve_first_cycle, MPCWrapper_solve_second_cycle,
    previous_control_handover (fun _ => 0) echo_fallback 0 0 none none
      (MPCWrapper.initial diagonal_path) ⟨⟨1 / 10, 5 / 33⟩, (1, 2), diagonal_path⟩
      ⟨⟨3 / 10, 10 / 11⟩, (2, 4), diagonal_path⟩ ⟨1 / 10, 5 / 33⟩ ⟨3 / 10, 10 / 11⟩
      MPCWrapper_solve_first_cycle MPCWrapper_solve_second_cycle⟩

/-- Claim C23: for every initial condition of four entries, references of four
channels and previous inputs of two entries, `update` leaves the values that
the three setters `updateInitialCondition`, `updateReference` and
`updatePreviousInput` leave when called one after the other on those entries;
the parameters hold the pushed values and no initial guess of a decision
variable is changed. -/
theorem update_eq_individual_pushes (s : OptiValues) (x y heading speed : ℚ)
    (x_ref y_ref heading_ref speed_ref : List ℚ) (accel steer : ℚ) :
    update s [x, y, heading, speed] [x_ref, y_ref, heading_ref, speed_ref] [accel, steer] =
        some (spec_push_individually s x y heading speed x_ref y_ref heading_ref speed_ref
          accel steer) ∧
      spec_push_individually s x y heading speed x_ref y_ref heading_ref speed_ref accel steer =
        { s with
          z_curr_ := [x, y, heading, speed]
          x_ref_ := x_ref
          y_ref_ := y_ref
          psi_ref_ := heading_ref
          v_ref_ := speed_ref
          u_prev_ := [accel, steer] } ∧
      (spec_push_individually s x y heading speed x_ref y_ref heading_ref speed_ref
          accel steer).x_dv_ = s.x_dv_ ∧
      (spec_push_individually s x y heading speed x_ref y_ref heading_ref speed_ref
          accel steer).y_dv_ = s.y_dv_ ∧
      (spec_push_individually s x y heading speed x_ref y_ref heading_ref speed_ref
          accel steer).psi_dv_ = s.psi_dv_ ∧
      (spec_push_individually s x y heading speed x_ref y_ref heading_ref speed_ref
          accel steer).v_dv_ = s.v_dv_ ∧
      (spec_push_individually s x y heading speed x_ref y_ref heading_ref speed_ref
          accel steer).acc_dv_ = s.acc_dv_ ∧
      (spec_push_individually s x y heading speed x_ref y_ref heading_ref speed_ref
          accel steer).df_dv_ = s.df_dv_ ∧
      (spec_push_individually s x y heading speed x_ref y_ref heading_ref speed_ref
          accel steer).sl_acc_dv_ = s.sl_acc_dv_ ∧
      (spec_push_individually s x y heading speed x_ref y_ref heading_ref speed_ref
          accel steer).sl_df_dv_ = s.sl_df_dv_ := by
  exact ⟨rfl, rfl, rfl, rfl, rfl, rfl, rfl, rfl, rfl, rfl⟩

/-! ## Traversable and non-traversable points -/

/-- A loop that pushes the points passing a test onto a list ends with the list
followed by the passing points, in input order. -/
theorem foldl_push_eq_filter (test : PointXYZRGB → Prop) [DecidablePred test]
    (points start : List PointXYZRGB) :
    points.foldl (fun kept p => if test p then kept ++ [p] else kept) start =
      start ++ points.filter (fun p => decide (test p)) := by
  induction points generalizing start with
  | nil => simp
  | cons p rest ih =>
    rw [List.foldl_cons, ih]
    by_cases hp : test p
    · simp [hp]
    · simp [hp]

/-- Claim C26: `get_traversable_points` returns, in input order and unchanged,
exactly the points of the cloud whose green channel is greater than 0, with
height 1 and width the number of returned points; `get_non_traversable_points`
does the same for the points whose red channel is greater than 0. -/
theorem get_traversable_points_filters (cloud : PointCloud) :
    ((get_traversable_points cloud).points =
        cloud.points.filter (fun p => decide (0 < p.g)) ∧
      (get_traversable_points cloud).height = 1 ∧
      (get_traversable_points cloud).width = (get_traversable_points cloud).points.length) ∧
    ((get_non_traversable_points cloud).points =
        cloud.points.filter (fun p => decide (0 < p.r)) ∧
      (get_non_traversable_points cloud).height = 1 ∧
      (get_non_traversable_points cloud).width =
        (get_non_traversable_points cloud).points.length) := by
  have hg : (fun p : PointXYZRGB => decide (p.g ≠ 0)) = fun p => decide (0 < p.g) := by
    funext p
    simp [Nat.pos_iff_ne_zero]
  have hr : (fun p : PointXYZRGB => decide (p.r ≠ 0)) = fun p => decide (0 < p.r) := by
    funext p
    simp [Nat.pos_iff_ne_zero]
  refine ⟨⟨?_, rfl, rfl⟩, ⟨?_, rfl, rfl⟩⟩
  · unfold get_traversable_points
    simp only [foldl_push_eq_filter (fun p => p.g ≠ 0), List.nil_append, hg]
  · unfold get_non_traversable_points
    simp only [foldl_push_eq_filter (fun p => p.r ≠ 0), List.nil_append, hr]

/-! ## Recolouring a cloud -/

/-- With three colours that convert to channel values, the loop of
`set_cloud_color` returns the points with these channel values written. -/
theorem set_cloud_color_loop_eq (cr cg cb : ℚ) (r g b : Nat)
    (hr : double_to_uint8 cr = some r) (hg : double_to_uint8 cg = some g)
    (hb : double_to_uint8 cb = some b) (points : List PointXYZRGB) :
    set_cloud_color_loop [cr, cg, cb] points =
      some (points.map fun p => { p with r := r, g := g, b := b }) := by
  induction points with
  | nil => rfl
  | cons p rest ih =>
    simp [set_cloud_color_loop, ih, hr, hg, hb]

/-- A whole number of `0 .. 255` converts to itself. -/
theorem double_to_uint8_natCast (n : Nat) (hn : n ≤ 255) :
    double_to_uint8 (n : ℚ) = some n := by
  have h1 : (-1 : ℚ) < (n : ℚ) := lt_of_lt_of_le (by norm_num) (Nat.cast_nonneg n)
  have h2 : (n : ℚ) < 256 := by
    have : n < 256 := by omega
    exact_mod_cast this
  simp [double_to_uint8, h1, h2]

/-- The colour 127.5 converts to the channel value 127. -/
theorem double_to_uint8_half : double_to_uint8 (255 / 2) = some 127 := by
  have hfloor : ⌊(255 / 2 : ℚ)⌋₊ = 127 := by
    rw [Nat.floor_eq_iff (by norm_num)]
    constructor <;> norm_num
  have h1 : (-1 : ℚ) < 255 / 2 := by norm_num
  have h2 : (255 / 2 : ℚ) < 256 := by norm_num
  simp [double_to_uint8, h1, h2, hfloor]

/-- Claim C29 as stated fails: called on a one-point cloud of colour
`(10, 20, 30)` with the colours `(0, 127.5, 127.5)`, `set_cloud_color` returns a
point of colour `(0, 127, 127)`, whose green channel is not the given 127.5, and
it leaves the point of the input cloud recoloured as well. -/
theorem set_cloud_color_not_pure :
    set_cloud_color ⟨[⟨0, 0, 0, 10, 20, 30, 255⟩], 1, 1⟩ [0, 255 / 2, 255 / 2] =
        some (⟨[⟨0, 0, 0, 0, 127, 127, 255⟩], 1, 1⟩, ⟨[⟨0, 0, 0, 0, 127, 127, 255⟩], 1, 1⟩) ∧
      ((127 : Nat) : ℚ) ≠ 255 / 2 ∧
      (⟨[⟨0, 0, 0, 0, 127, 127, 255⟩], 1, 1⟩ : PointCloud).points ≠
        (⟨[⟨0, 0, 0, 10, 20, 30, 255⟩], 1, 1⟩ : PointCloud).points := by
  refine ⟨?_, by norm_num, by decide⟩
  have h0 : double_to_uint8 0 = some 0 := by
    simpa using double_to_uint8_natCast 0 (by decide)
  simp [set_cloud_color,
    set_cloud_color_loop_eq 0 (255 / 2) (255 / 2) 0 127 127 h0 double_to_uint8_half
      double_to_uint8_half]

/-- Claim C29, amended: for colours that convert to the channel values
`(r, g, b)`, the cloud returned by `set_cloud_color` has the points of the input
in the same order with the same coordinates and every colour equal to
`(r, g, b)`, height 1 and width the number of points; a colour that is a whole
number of `0 .. 255` converts to itself, any other colour of that range to its
integer part. -/
theorem set_cloud_color_paints (cloud : PointCloud) (cr cg cb : ℚ) (r g b : Nat)
    (hr : double_to_uint8 cr = some r) (hg : double_to_uint8 cg = some g)
    (hb : double_to_uint8 cb = some b) :
    (∃ input_after : PointCloud,
      set_cloud_color cloud [cr, cg, cb] =
        some (⟨cloud.points.map fun p => { p with r := r, g := g, b := b },
          cloud.points.length, 1⟩, input_after)) ∧
    r = ⌊cr⌋₊ ∧ g = ⌊cg⌋₊ ∧ b = ⌊cb⌋₊ ∧
    (∀ n : Nat, n ≤ 255 → double_to_uint8 (n : ℚ) = some n) := by
  have floor_of : ∀ (d : ℚ) (n : Nat), double_to_uint8 d = some n → n = ⌊d⌋₊ := by
    intro d n hd
    unfold double_to_uint8 at hd
    split_ifs at hd
    exact (Option.some.inj hd).symm
  refine ⟨⟨{ cloud with points := cloud.points.map fun p => { p with r := r, g := g, b := b } },
    ?_⟩, floor_of cr r hr, floor_of cg g hg, floor_of cb b hb, double_to_uint8_natCast⟩
  simp [set_cloud_color, set_cloud_color_loop_eq cr cg cb r g b hr hg hb]

/-- Claim C29, witness: the sample cloud painted red, `(255, 0, 0)`. -/
theorem set_cloud_color_paints_witness :
    double_to_uint8 255 = some 255 ∧ double_to_uint8 0 = some 0 ∧
      double_to_uint8 0 = some 0 ∧
    ((∃ input_after : PointCloud,
      set_cloud_color sample_cloud [255, 0, 0] =
        some (⟨sample_cloud.points.map fun p => { p with r := 255, g := 0, b := 0 },
          sample_cloud.points.length, 1⟩, input_after)) ∧
    255 = ⌊(255 : ℚ)⌋₊ ∧ 0 = ⌊(0 : ℚ)⌋₊ ∧ 0 = ⌊(0 : ℚ)⌋₊ ∧
    (∀ n : Nat, n ≤ 255 → double_to_uint8 (n : ℚ) = some n)) :=
  ⟨by simpa using double_to_uint8_natCast 255 (by decide),
    by simpa using double_to_uint8_natCast 0 (by decide),
    by simpa using double_to_uint8_natCast 0 (by decide),
    set_cloud_color_paints sample_cloud 255 0 0 255 0 0
      (by simpa using double_to_uint8_natCast 255 (by decide))
      (by simpa using double_to_uint8_natCast 0 (by decide))
      (by simpa using double_to_uint8_natCast 0 (by decide))⟩

/-- The input cloud after `set_cloud_color` holds the recoloured points: the
loop variable is a reference into the input, so the call paints its argument
too. -/
theorem set_cloud_color_recolours_input (cloud new_colored_cloud input_after : PointCloud)
    (colors : List ℚ)
    (h : set_cloud_color cloud colors = some (new_colored_cloud, input_after)) :
    input_after.points = new_colored_cloud.points ∧ input_after.width = cloud.width ∧
      input_after.height = cloud.height := by
  unfold set_cloud_color at h
  cases hl : set_cloud_color_loop colors cloud.points with
  | none => simp [hl] at h
  | some points =>
    simp [hl] at h
    obtain ⟨h1, h2⟩ := h
    rw [← h1, ← h2]
    exact ⟨rfl, rfl, rfl⟩

/-! ## Slope cost -/

/-- The slope cost of two non-negative tilt values lies in `[0, 255]`. -/
theorem slope_cost_range (pitch roll : ℝ) (hp : 0 ≤ pitch) :
    0 ≤ slope_cost pitch roll ∧ slope_cost pitch roll ≤ 255 := by
  unfold slope_cost MAX_ALLOWED_TILT kMAX_COLOR_RANGE
  have hmax : 0 ≤ max pitch roll := le_trans hp (le_max_left _ _)
  have hdiv : 0 ≤ max pitch roll / 40 := div_nonneg hmax (by norm_num)
  have hmin0 : 0 ≤ min (max pitch roll / 40) 1 := le_min hdiv zero_le_one
  have hmin1 : min (max pitch roll / 40) 1 ≤ 1 := min_le_right _ _
  constructor
  · positivity
  · nlinarith

/-- One value of `absolute_rpy_from_plane`: for a positive magnitude at least the
size of the component, `|component / magnitude * (180 / pi)|` is
`|component| / magnitude * (180 / pi)` and lies in `[0, 180 / pi]`. -/
theorem tilt_value_range (component magnitude : ℝ) (hm : 0 < magnitude)
    (hle : |component| ≤ magnitude) :
    |component / magnitude * (180 / Real.pi)| = |component| / magnitude * (180 / Real.pi) ∧
      0 ≤ |component| / magnitude * (180 / Real.pi) ∧
      |component| / magnitude * (180 / Real.pi) ≤ 180 / Real.pi := by
  have hk : (0 : ℝ) < 180 / Real.pi := div_pos (by norm_num) Real.pi_pos
  have hratio : |component| / magnitude ≤ 1 := (div_le_one hm).2 hle
  refine ⟨?_, ?_, ?_⟩
  · rw [abs_mul, abs_div, abs_of_pos hm, abs_of_pos hk]
  · exact mul_nonneg (div_nonneg (abs_nonneg _) hm.le) hk.le
  · calc |component| / magnitude * (180 / Real.pi) ≤ 1 * (180 / Real.pi) :=
          mul_le_mul_of_nonneg_right hratio hk.le
      _ = 180 / Real.pi := one_mul _

/-- Claim C30: over the reals, for every plane model whose normal `(a, b, c)` is
not the zero vector, the three values returned by `absolute_rpy_from_plane` are
`|component| / |normal| * 180 / pi`, each within `[0, 180 / pi]`, and the slope
cost `min(max(v0, v1) / MAX_ALLOWED_TILT, 1) * 255` computed from the first two
lies in `[0, 255]`. -/
theorem absolute_rpy_from_plane_range (values : Nat → ℝ)
    (h : ¬ (values 0 = 0 ∧ values 1 = 0 ∧ values 2 = 0)) :
    absolute_rpy_from_plane Real.sqrt Real.pi values =
        [|values 0| / Real.sqrt (values 0 ^ 2 + values 1 ^ 2 + values 2 ^ 2) *
            (180 / Real.pi),
          |values 1| / Real.sqrt (values 0 ^ 2 + values 1 ^ 2 + values 2 ^ 2) *
            (180 / Real.pi),
          |values 2| / Real.sqrt (values 0 ^ 2 + values 1 ^ 2 + values 2 ^ 2) *
            (180 / Real.pi)] ∧
      (∀ v ∈ absolute_rpy_from_plane Real.sqrt Real.pi values,
        0 ≤ v ∧ v ≤ 180 / Real.pi) ∧
      0 ≤ slope_cost ((absolute_rpy_from_plane Real.sqrt Real.pi values).getD 0 0)
          ((absolute_rpy_from_plane Real.sqrt Real.pi values).getD 1 0) ∧
      slope_cost ((absolute_rpy_from_plane Real.sqrt Real.pi values).getD 0 0)
          ((absolute_rpy_from_plane Real.sqrt Real.pi values).getD 1 0) ≤ 255 := by
  have hsum : 0 < values 0 ^ 2 + values 1 ^ 2 + values 2 ^ 2 := by
    by_contra hneg
    push_neg at hneg
    have h0 := sq_nonneg (values 0)
    have h1 := sq_nonneg (values 1)
    have h2 := sq_nonneg (values 2)
    apply h
    refine ⟨?_, ?_, ?_⟩
    · exact pow_eq_zero_iff (two_ne_zero) |>.1 (by linarith)
    · exact pow_eq_zero_iff (two_ne_zero) |>.1 (by linarith)
    · exact pow_eq_zero_iff (two_ne_zero) |>.1 (by linarith)
  have hm : 0 < Real.sqrt (values 0 ^ 2 + values 1 ^ 2 + values 2 ^ 2) := Real.sqrt_pos.2 hsum
  have l0 : |values 0| ≤ Real.sqrt (values 0 ^ 2 + values 1 ^ 2 + values 2 ^ 2) :=
    Real.abs_le_sqrt (by nlinarith [sq_nonneg (values 1), sq_nonneg (values 2)])
  have l1 : |values 1| ≤ Real.sqrt (values 0 ^ 2 + values 1 ^ 2 + values 2 ^ 2) :=
    Real.abs_le_sqrt (by nlinarith [sq_nonneg (values 0), sq_nonneg (values 2)])
  have l2 : |values 2| ≤ Real.sqrt (values 0 ^ 2 + values 1 ^ 2 + values 2 ^ 2) :=
    Real.abs_le_sqrt (by nlinarith [sq_nonneg (values 0), sq_nonneg (values 1)])
  obtain ⟨e0, n0, u0⟩ := tilt_value_range (values 0) _ hm l0
  obtain ⟨e1, n1, u1⟩ := tilt_value_range (values 1) _ hm l1
  obtain ⟨e2, n2, u2⟩ := tilt_value_range (values 2) _ hm l2
  have hout : absolute_rpy_from_plane Real.sqrt Real.pi values =
      [|values 0| / Real.sqrt (values 0 ^ 2 + values 1 ^ 2 + values 2 ^ 2) * (180 / Real.pi),
        |values 1| / Real.sqrt (values 0 ^ 2 + values 1 ^ 2 + values 2 ^ 2) * (180 / Real.pi),
        |values 2| / Real.sqrt (values 0 ^ 2 + values 1 ^ 2 + values 2 ^ 2) *
          (180 / Real.pi)] := by
    unfold absolute_rpy_from_plane
    simp only [e0, e1, e2]
  rw [hout]
  refine ⟨rfl, ?_, ?_⟩
  · intro v hv
    simp only [List.mem_cons, List.mem_singleton, List.not_mem_nil, or_false] at hv
    rcases hv with rfl | rfl | rfl
    · exact ⟨n0, u0⟩
    · exact ⟨n1, u1⟩
    · exact ⟨n2, u2⟩
  · simp only [List.getD_cons_zero, List.getD_cons_succ]
    exact slope_cost_range _ _ n0

/-- Claim C30, witness: the horizontal plane, normal `(0, 0, 1)`. -/
theorem absolute_rpy_from_plane_range_witness :
    ¬ (level_plane 0 = 0 ∧ level_plane 1 = 0 ∧ level_plane 2 = 0) ∧
    (absolute_rpy_from_plane Real.sqrt Real.pi level_plane =
        [|level_plane 0| /
            Real.sqrt (level_plane 0 ^ 2 + level_plane 1 ^ 2 + level_plane 2 ^ 2) *
            (180 / Real.pi),
          |level_plane 1| /
            Real.sqrt (level_plane 0 ^ 2 + level_plane 1 ^ 2 + level_plane 2 ^ 2) *
            (180 / Real.pi),
          |level_plane 2| /
            Real.sqrt (level_plane 0 ^ 2 + level_plane 1 ^ 2 + level_plane 2 ^ 2) *
            (180 / Real.pi)] ∧
      (∀ v ∈ absolute_rpy_from_plane Real.sqrt Real.pi level_plane,
        0 ≤ v ∧ v ≤ 180 / Real.pi) ∧
      0 ≤ slope_cost ((absolute_rpy_from_plane Real.sqrt Real.pi level_plane).getD 0 0)
          ((absolute_rpy_from_plane Real.sqrt Real.pi level_plane).getD 1 0) ∧
      slope_cost ((absolute_rpy_from_plane Real.sqrt Real.pi level_plane).getD 0 0)
          ((absolute_rpy_from_plane Real.sqrt Real.pi level_plane).getD 1 0) ≤ 255) :=
  ⟨by simp [level_plane],
    absolute_rpy_from_plane_range level_plane (by simp [level_plane])⟩

/-! ## The `-1` result of the nearest-waypoint search -/

/-- A second loop invariant of the search. While the stored index is `-1` the
stored distance is still 10000 and no visited waypoint is closer than 10000;
once the index is not `-1` some visited waypoint is closer than 10000. The
invariant holds again when the loop has run over the remaining poses. -/
theorem nearest_loop_sentinel (pose : PoseStamped) :
    ∀ (rest pre : List PoseStamped) (idx c : Int),
      (idx = -1 → c = 10000 ∧
        ∀ w ∈ pre, ¬ Real.sqrt ((sq_distance w pose : ℚ) : ℝ) < 10000) →
      (idx ≠ -1 → ∃ w ∈ pre, Real.sqrt ((sq_distance w pose : ℚ) : ℝ) < 10000) →
      ((nearest_loop pose rest (pre.length : Int) (idx, c)).1 = -1 →
        ∀ w ∈ pre ++ rest, ¬ Real.sqrt ((sq_distance w pose : ℚ) : ℝ) < 10000) ∧
      ((nearest_loop pose rest (pre.length : Int) (idx, c)).1 ≠ -1 →
        ∃ w ∈ pre ++ rest, Real.sqrt ((sq_distance w pose : ℚ) : ℝ) < 10000) := by
  intro rest
  induction rest with
  | nil =>
    intro pre idx c ha hb
    simp only [nearest_loop, List.append_nil]
    exact ⟨fun h => (ha h).2, hb⟩
  | cons w rest ih =>
    intro pre idx c ha hb
    have hlen : ((pre.length : Int) + 1) = (((pre ++ [w]).length : Nat) : Int) := by
      simp
    have happ : pre ++ w :: rest = (pre ++ [w]) ++ rest := by simp
    rw [happ]
    unfold nearest_loop
    dsimp only
    by_cases hlt : sqrt_lt_int (sq_distance w pose) c = true
    · rw [if_pos hlt, hlen]
      have hreal := (sqrt_lt_int_iff _ _).1 hlt
      have hidx : ((pre.length : Nat) : Int) ≠ -1 := by omega
      apply ih
      · intro hcon
        exact absurd hcon hidx
      · intro _
        by_cases hneg : idx = -1
        · refine ⟨w, by simp, ?_⟩
          have hc := (ha hneg).1
          rw [hc] at hreal
          exact_mod_cast hreal
        · obtain ⟨w', hw', hd⟩ := hb hneg
          exact ⟨w', List.mem_append_left _ hw', hd⟩
    · rw [if_neg hlt, hlen]
      have hreal : ¬ Real.sqrt ((sq_distance w pose : ℚ) : ℝ) < (c : ℝ) := fun hcon =>
        hlt ((sqrt_lt_int_iff _ _).2 hcon)
      apply ih
      · intro hneg
        obtain ⟨hc, hall⟩ := ha hneg
        refine ⟨hc, ?_⟩
        intro w' hw'
        rcases List.mem_append.1 hw' with hpre | hw
        · exact hall w' hpre
        · rw [List.mem_singleton.1 hw]
          rw [hc] at hreal
          exact_mod_cast hreal
      · intro hneg
        obtain ⟨w', hw', hd⟩ := hb hneg
        exact ⟨w', List.mem_append_left _ hw', hd⟩

/-- Claim C27: `calculate_nearest_state_index` returns `-1` if and only if no
waypoint of the path lies at a distance strictly less than 10000 from the pose,
which includes the empty path; in every other case the result is an index of
the path. -/
theorem calculate_nearest_state_index_sentinel (reference_traj : Path)
    (curr_robot_pose : PoseStamped) :
    (calculate_nearest_state_index reference_traj curr_robot_pose = -1 ↔
      ∀ w ∈ reference_traj.poses,
        ¬ Real.sqrt ((sq_distance w curr_robot_pose : ℚ) : ℝ) < 10000) ∧
    (calculate_nearest_state_index reference_traj curr_robot_pose ≠ -1 →
      0 ≤ calculate_nearest_state_index reference_traj curr_robot_pose ∧
      calculate_nearest_state_index reference_traj curr_robot_pose <
        (reference_traj.poses.length : Int)) ∧
    (∀ pose : PoseStamped, calculate_nearest_state_index ⟨[]⟩ pose = -1) := by
  have hs := nearest_loop_sentinel curr_robot_pose reference_traj.poses [] (-1) 10000
    (fun _ => ⟨rfl, by simp⟩) (fun hcon => absurd rfl hcon)
  simp only [List.nil_append, List.length_nil, Nat.cast_zero] at hs
  have hinv := (nearest_loop_invariant curr_robot_pose reference_traj.poses [] (-1) 10000
    (by simp) (Or.inl rfl)).2
  simp only [List.nil_append, List.length_nil, Nat.cast_zero] at hinv
  unfold calculate_nearest_state_index
  refine ⟨⟨hs.1, ?_⟩, ?_, fun _ => rfl⟩
  · intro hall
    by_contra hne
    obtain ⟨w, hw, hd⟩ := hs.2 hne
    exact hall w hw hd
  · intro hne
    rcases hinv with hneg | ⟨k, hk, hlen, -⟩
    · exact absurd hneg hne
    · rw [hk]
      exact ⟨by positivity, by exact_mod_cast hlen⟩

/-! ## Planned speed -/

/-- Claim C28: in every assignment that satisfies the constraints emitted by
`addConstraints`, for every `k <= N` the planned speed of step `k` is the
current-state speed plus `dt` times the sum of the accelerations of the steps
before `k`; the current-state speed lies in `[V_MIN, V_MAX]`, so no assignment
satisfies the constraints when the current-state speed parameter is outside
that range. -/
theorem addConstraints_speed_rollout (c : Coeffs) (p : Params) (a : Vars)
    (h : Feasible c p a) :
    (∀ k, k ≤ c.N →
      a.v_dv_ k = p.z_curr_ 3 + c.DT * Finset.sum (Finset.range k) a.acc_dv_) ∧
    (c.V_MIN ≤ p.z_curr_ 3 ∧ p.z_curr_ 3 ≤ c.V_MAX) ∧
    (∀ p' : Params, (p'.z_curr_ 3 < c.V_MIN ∨ c.V_MAX < p'.z_curr_ 3) →
      ¬ ∃ a' : Vars, Feasible c p' a') := by
  have bound : ∀ (p' : Params) (a' : Vars), Feasible c p' a' →
      c.V_MIN ≤ p'.z_curr_ 3 ∧ p'.z_curr_ 3 ≤ c.V_MAX := by
    intro p' a' h'
    obtain ⟨hv, ⟨-, -, -, hinit⟩, -⟩ := (feasible_iff c p' a').1 h'
    simp only [Constraint.holds] at hv hinit
    have := hv 0 (Nat.succ_pos _)
    rw [hinit] at this
    exact this
  refine ⟨?_, bound p a h, ?_⟩
  · obtain ⟨-, ⟨-, -, -, hinit⟩, hdyn, -⟩ := (feasible_iff c p a).1 h
    simp only [Constraint.holds] at hinit
    intro k
    induction k with
    | zero =>
      intro _
      simp [hinit]
    | succ k ih =>
      intro hk
      have hstep := (hdyn k (by omega)).2.2.2
      simp only [Constraint.holds] at hstep
      rw [hstep, ih (by omega), Finset.sum_range_succ]
      ring
  · rintro p' hout ⟨a', h'⟩
    obtain ⟨h1, h2⟩ := bound p' a' h'
    rcases hout with hlo | hhi
    · linarith
    · linarith

/-- Claim C28, witness: the constant-speed rollout of the sample problem, whose
current speed is 1. -/
theorem addConstraints_speed_rollout_witness :
    Feasible sample_coeffs cruise_params cruise_vars ∧
    ((∀ k, k ≤ sample_coeffs.N →
      cruise_vars.v_dv_ k =
        cruise_params.z_curr_ 3 +
          sample_coeffs.DT * Finset.sum (Finset.range k) cruise_vars.acc_dv_) ∧
    (sample_coeffs.V_MIN ≤ cruise_params.z_curr_ 3 ∧
      cruise_params.z_curr_ 3 ≤ sample_coeffs.V_MAX) ∧
    (∀ p' : Params,
      (p'.z_curr_ 3 < sample_coeffs.V_MIN ∨ sample_coeffs.V_MAX < p'.z_curr_ 3) →
        ¬ ∃ a' : Vars, Feasible sample_coeffs p' a')) :=
  ⟨cruise_feasible,
    addConstraints_speed_rollout sample_coeffs cruise_params cruise_vars cruise_feasible⟩

/-! ## Counting the emitted constraints -/

/-- Membership in the list emitted by `addConstraints`. -/
theorem mem_addConstraints (N : Nat) (k : Constraint) :
    k ∈ addConstraints N ↔
      (k = Constraint.state_bound ∨ k = Constraint.init_x ∨ k = Constraint.init_y ∨
        k = Constraint.init_psi ∨ k = Constraint.init_v) ∨
      (∃ i, i < N ∧ (k = Constraint.dyn_x i ∨ k = Constraint.dyn_y i ∨
        k = Constraint.dyn_psi i ∨ k = Constraint.dyn_v i)) ∨
      (k = Constraint.acc_bound ∨ k = Constraint.df_bound ∨
        k = Constraint.acc_rate_first ∨ k = Constraint.df_rate_first) ∨
      (∃ i, i < N - 1 ∧ (k = Constraint.acc_rate i ∨ k = Constraint.df_rate i)) ∨
      (k = Constraint.sl_df_nonneg ∨ k = Constraint.sl_acc_nonneg) := by
  unfold addConstraints
  simp only [List.mem_append, List.mem_flatMap, List.mem_range, List.mem_cons,
    List.mem_singleton, List.not_mem_nil, or_false, or_assoc]

/-- Filtering a concatenation of blocks filters each block. -/
theorem filter_flatMap_range (f : Nat → List Constraint) (test : Constraint → Bool) (n : Nat) :
    ((List.range n).flatMap f).filter test = (List.range n).flatMap fun i => (f i).filter test := by
  induction n with
  | zero => simp
  | succ n ih => simp [List.range_succ, List.flatMap_append, List.filter_append, ih]

/-- Blocks that are all empty concatenate to the empty list. -/
theorem flatMap_range_nil (n : Nat) :
    ((List.range n).flatMap fun _ => ([] : List Constraint)) = [] := by
  induction n with
  | zero => simp
  | succ n ih => simp [List.range_succ, List.flatMap_append, ih]

/-- The length of `n` concatenated blocks of `m` entries each. -/
theorem length_flatMap_range (f : Nat → List Constraint) (m : Nat)
    (hf : ∀ i, (f i).length = m) (n : Nat) :
    ((List.range n).flatMap f).length = m * n := by
  induction n with
  | zero => simp
  | succ n ih =>
    simp [List.range_succ, List.flatMap_append, ih, hf]
    ring

/-- The dynamics equalities among the emitted constraints. -/
theorem addConstraints_filter_dynamics (N : Nat) :
    (addConstraints N).filter Constraint.is_dynamics =
      (List.range N).flatMap fun i =>
        [Constraint.dyn_x i, Constraint.dyn_y i, Constraint.dyn_psi i, Constraint.dyn_v i] := by
  unfold addConstraints
  simp only [List.filter_append, filter_flatMap_range]
  simp [Constraint.is_dynamics, flatMap_range_nil]

/-- The input-rate constraints among the emitted constraints. -/
theorem addConstraints_filter_rate (N : Nat) :
    (addConstraints N).filter (fun k => k.rate_step.isSome) =
      [Constraint.acc_rate_first, Constraint.df_rate_first] ++
        (List.range (N - 1)).flatMap fun i => [Constraint.acc_rate i, Constraint.df_rate i] := by
  unfold addConstraints
  simp only [List.filter_append, filter_flatMap_range]
  simp [Constraint.rate_step, flatMap_range_nil]

/-- Among blocks indexed by `0 .. n-1` of which only block `i` is kept, the
concatenation is block `i`. -/
theorem flatMap_range_single (g : Nat → List Constraint) (i n : Nat) (hi : i < n) :
    ((List.range n).flatMap fun j => if j = i then g j else []) = g i := by
  induction n with
  | zero => omega
  | succ n ih =>
    rw [List.range_succ, List.flatMap_append]
    rcases Nat.lt_or_ge i n with hlt | hge
    · have hne : n ≠ i := by omega
      simp [ih hlt, hne]
    · have heq : n = i := by omega
      subst heq
      have hnone : ((List.range n).flatMap fun j => if j = n then g j else []) = [] := by
        rw [List.flatMap_eq_nil_iff]
        intro j hj
        have hlt := List.mem_range.1 hj
        have : j ≠ n := by omega
        simp [this]
      simp [hnone]

/-- The input-rate constraints of control step `i + 1`. -/
theorem addConstraints_filter_rate_step (N i : Nat) (hi : i + 1 < N) :
    (addConstraints N).filter (fun k => decide (k.rate_step = some (i + 1))) =
      [Constraint.acc_rate i, Constraint.df_rate i] := by
  have hblock : ∀ j : Nat,
      [Constraint.acc_rate j, Constraint.df_rate j].filter
          (fun k => decide (k.rate_step = some (i + 1))) =
        if j = i then [Constraint.acc_rate j, Constraint.df_rate j] else [] := by
    intro j
    by_cases hj : j = i
    · simp [Constraint.rate_step, hj]
    · simp [Constraint.rate_step, hj]
  unfold addConstraints
  simp only [List.filter_append, filter_flatMap_range, hblock]
  rw [flatMap_range_single (fun j => [Constraint.acc_rate j, Constraint.df_rate j]) i (N - 1)
    (by omega)]
  simp [Constraint.rate_step, flatMap_range_nil]

/-- The slack rows read by an input-rate constraint are the only slack rows its
meaning depends on: changing the other slack rows changes nothing. -/
theorem rate_holds_slack_local (c : Coeffs) (p : Params) (a : Vars) (k : Constraint)
    (s : Nat) (hk : k.rate_step = some s) (sl' : Nat → Nat → ℝ)
    (hrow : sl' s = a.sl_dv_ s) :
    k.holds c p ⟨a.z_dv_, a.u_dv_, sl'⟩ ↔ k.holds c p a := by
  cases k <;> simp [Constraint.rate_step] at hk <;> subst hk <;>
    simp [Constraint.holds, Vars.acc_dv_, Vars.df_dv_, Vars.sl_acc_dv_, Vars.sl_df_dv_, hrow]

/-- Claim C24: for every horizon `N > 0`, `addConstraints` emits as dynamics
constraints exactly the four equalities of each `i < N`, `4 * N` in all, which
read exactly the state rows `0 .. N`; it emits `2 * N` input-rate constraints,
one for acceleration and one for steering per control step `0 .. N-1`; the
constraints read exactly the control rows and the slack rows `0 .. N-1` by
index; and the rate constraint of step `s` reads slack row `s` and depends on no
other slack row. -/
theorem addConstraints_counts (N : Nat) (hN : 0 < N) :
    ((addConstraints N).filter Constraint.is_dynamics =
        (List.range N).flatMap fun i =>
          [Constraint.dyn_x i, Constraint.dyn_y i, Constraint.dyn_psi i, Constraint.dyn_v i]) ∧
    ((addConstraints N).filter Constraint.is_dynamics).length = 4 * N ∧
    (∀ row, (∃ k ∈ addConstraints N, k.is_dynamics = true ∧ row ∈ k.state_rows) ↔
      row < N + 1) ∧
    ((addConstraints N).filter fun k => k.rate_step.isSome).length = 2 * N ∧
    ((addConstraints N).filter (fun k => decide (k.rate_step = some 0)) =
      [Constraint.acc_rate_first, Constraint.df_rate_first]) ∧
    (∀ i, i + 1 < N →
      (addConstraints N).filter (fun k => decide (k.rate_step = some (i + 1))) =
        [Constraint.acc_rate i, Constraint.df_rate i]) ∧
    (∀ row, (∃ k ∈ addConstraints N, row ∈ k.control_rows) ↔ row < N) ∧
    (∀ row, (∃ k ∈ addConstraints N, row ∈ k.slack_rows) ↔ row < N) ∧
    (∀ k ∈ addConstraints N, ∀ s, k.rate_step = some s →
      k.slack_rows = [s] ∧
      ∀ (c : Coeffs) (p : Params) (a : Vars) (sl' : Nat → Nat → ℝ),
        sl' s = a.sl_dv_ s → (k.holds c p ⟨a.z_dv_, a.u_dv_, sl'⟩ ↔ k.holds c p a)) := by
  refine ⟨addConstraints_filter_dynamics N, ?_, ?_, ?_, ?_, ?_, ?_, ?_, ?_⟩
  · rw [addConstraints_filter_dynamics]
    exact length_flatMap_range
      (fun i => [Constraint.dyn_x i, Constraint.dyn_y i, Constraint.dyn_psi i,
        Constraint.dyn_v i]) 4 (fun _ => rfl) N
  · intro row
    constructor
    · rintro ⟨k, hk, hdyn, hrow⟩
      rw [mem_addConstraints] at hk
      rcases hk with h | ⟨i, hi, h⟩ | h | ⟨i, hi, h⟩ | h
      · rcases h with rfl | rfl | rfl | rfl | rfl <;> simp [Constraint.is_dynamics] at hdyn
      · rcases h with rfl | rfl | rfl | rfl <;>
          simp [Constraint.state_rows] at hrow <;> omega
      · rcases h with rfl | rfl | rfl | rfl <;> simp [Constraint.is_dynamics] at hdyn
      · rcases h with rfl | rfl <;> simp [Constraint.is_dynamics] at hdyn
      · rcases h with rfl | rfl <;> simp [Constraint.is_dynamics] at hdyn
    · intro hrow
      rcases Nat.eq_zero_or_pos row with h0 | hpos
      · refine ⟨Constraint.dyn_x 0, ?_, rfl, by simp [Constraint.state_rows, h0]⟩
        rw [mem_addConstraints]
        exact Or.inr (Or.inl ⟨0, hN, Or.inl rfl⟩)
      · refine ⟨Constraint.dyn_x (row - 1), ?_, rfl, ?_⟩
        · rw [mem_addConstraints]
          exact Or.inr (Or.inl ⟨row - 1, by omega, Or.inl rfl⟩)
        · simp only [Constraint.state_rows, List.mem_cons]
          left
          omega
  · rw [addConstraints_filter_rate, List.length_append,
      length_flatMap_range (fun i => [Constraint.acc_rate i, Constraint.df_rate i]) 2
        (fun _ => rfl)]
    simp only [List.length_cons, List.length_nil]
    omega
  · unfold addConstraints
    simp only [List.filter_append, filter_flatMap_range]
    simp [Constraint.rate_step, flatMap_range_nil]
  · intro i hi
    exact addConstraints_filter_rate_step N i hi
  · intro row
    constructor
    · rintro ⟨k, hk, hrow⟩
      rw [mem_addConstraints] at hk
      rcases hk with h | ⟨i, hi, h⟩ | h | ⟨i, hi, h⟩ | h
      · rcases h with rfl | rfl | rfl | rfl | rfl <;> simp [Constraint.control_rows] at hrow
      · rcases h with rfl | rfl | rfl | rfl <;>
          simp [Constraint.control_rows] at hrow <;> omega
      · rcases h with rfl | rfl | rfl | rfl <;>
          simp [Constraint.control_rows] at hrow <;> omega
      · rcases h with rfl | rfl <;> simp [Constraint.control_rows] at hrow <;> omega
      · rcases h with rfl | rfl <;> simp [Constraint.control_rows] at hrow
    · intro hrow
      refine ⟨Constraint.dyn_v row, ?_, by simp [Constraint.control_rows]⟩
      rw [mem_addConstraints]
      exact Or.inr (Or.inl ⟨row, hrow, Or.inr (Or.inr (Or.inr rfl))⟩)
  · intro row
    constructor
    · rintro ⟨k, hk, hrow⟩
      rw [mem_addConstraints] at hk
      rcases hk with h | ⟨i, hi, h⟩ | h | ⟨i, hi, h⟩ | h
      · rcases h with rfl | rfl | rfl | rfl | rfl <;> simp [Constraint.slack_rows] at hrow
      · rcases h with rfl | rfl | rfl | rfl <;> simp [Constraint.slack_rows] at hrow
      · rcases h with rfl | rfl | rfl | rfl <;>
          simp [Constraint.slack_rows] at hrow <;> omega
      · rcases h with rfl | rfl <;> simp [Constraint.slack_rows] at hrow <;> omega
      · rcases h with rfl | rfl <;> simp [Constraint.slack_rows] at hrow
    · intro hrow
      rcases Nat.eq_zero_or_pos row with h0 | hpos
      · refine ⟨Constraint.acc_rate_first, ?_, by simp [Constraint.slack_rows, h0]⟩
        rw [mem_addConstraints]
        exact Or.inr (Or.inr (Or.inl (Or.inr (Or.inr (Or.inl rfl)))))
      · refine ⟨Constraint.acc_rate (row - 1), ?_, ?_⟩
        · rw [mem_addConstraints]
          exact Or.inr (Or.inr (Or.inr (Or.inl ⟨row - 1, by omega, Or.inl rfl⟩)))
        · simp only [Constraint.slack_rows, List.mem_singleton]
          omega
  · intro k _ s hs
    refine ⟨?_, fun c p a sl' hrow => rate_holds_slack_local c p a k s hs sl' hrow⟩
    cases k <;> simp [Constraint.rate_step] at hs <;> subst hs <;> rfl

/-- Claim C24, witness: the horizon 10 of the sample coefficients. -/
theorem addConstraints_counts_witness :
    0 < 10 ∧
    (((addConstraints 10).filter Constraint.is_dynamics =
        (List.range 10).flatMap fun i =>
          [Constraint.dyn_x i, Constraint.dyn_y i, Constraint.dyn_psi i, Constraint.dyn_v i]) ∧
    ((addConstraints 10).filter Constraint.is_dynamics).length = 4 * 10 ∧
    (∀ row, (∃ k ∈ addConstraints 10, k.is_dynamics = true ∧ row ∈ k.state_rows) ↔
      row < 10 + 1) ∧
    ((addConstraints 10).filter fun k => k.rate_step.isSome).length = 2 * 10 ∧
    ((addConstraints 10).filter (fun k => decide (k.rate_step = some 0)) =
      [Constraint.acc_rate_first, Constraint.df_rate_first]) ∧
    (∀ i, i + 1 < 10 →
      (addConstraints 10).filter (fun k => decide (k.rate_step = some (i + 1))) =
        [Constraint.acc_rate i, Constraint.df_rate i]) ∧
    (∀ row, (∃ k ∈ addConstraints 10, row ∈ k.control_rows) ↔ row < 10) ∧
    (∀ row, (∃ k ∈ addConstraints 10, row ∈ k.slack_rows) ↔ row < 10) ∧
    (∀ k ∈ addConstraints 10, ∀ s, k.rate_step = some s →
      k.slack_rows = [s] ∧
      ∀ (c : Coeffs) (p : Params) (a : Vars) (sl' : Nat → Nat → ℝ),
        sl' s = a.sl_dv_ s → (k.holds c p ⟨a.z_dv_, a.u_dv_, sl'⟩ ↔ k.holds c p a))) :=
  ⟨by decide, addConstraints_counts 10 (by decide)⟩

/-! ## Index reads of the construction -/

/-- For a horizon of at least one step every row read by index while the problem
is built exists in the declared matrices. -/
theorem construction_reads_in_range (N : Nat) (hN : 1 ≤ N) :
    ∀ rd ∈ construction_reads N, rd.in_range N = true := by
  intro rd hrd
  unfold construction_reads at hrd
  simp only [List.mem_append, List.mem_flatMap, List.mem_cons, List.mem_singleton,
    List.not_mem_nil, or_false, or_self] at hrd
  rcases hrd with (⟨k, hk, hread⟩ | hcost) | hextract
  · rw [mem_addConstraints] at hk
    rcases hk with h | ⟨i, hi, h⟩ | h | ⟨i, hi, h⟩ | h
    · rcases h with rfl | rfl | rfl | rfl | rfl <;>
        simp [Constraint.reads, Constraint.state_rows, Constraint.control_rows,
          Constraint.slack_rows] at hread <;>
        subst hread <;> simp [RowRead.in_range]
    · rcases h with rfl | rfl | rfl | rfl <;>
        simp [Constraint.reads, Constraint.state_rows, Constraint.control_rows,
          Constraint.slack_rows] at hread <;>
        rcases hread with rfl | rfl | rfl <;> simp [RowRead.in_range] <;> omega
    · rcases h with rfl | rfl | rfl | rfl <;>
        simp [Constraint.reads, Constraint.state_rows, Constraint.control_rows,
          Constraint.slack_rows] at hread <;>
        rcases hread with rfl | rfl <;> simp [RowRead.in_range] <;> omega
    · rcases h with rfl | rfl <;>
        simp [Constraint.reads, Constraint.state_rows, Constraint.control_rows,
          Constraint.slack_rows] at hread <;>
        rcases hread with rfl | rfl | rfl <;> simp [RowRead.in_range] <;> omega
    · rcases h with rfl | rfl <;>
        simp [Constraint.reads, Constraint.state_rows, Constraint.control_rows,
          Constraint.slack_rows] at hread
  · unfold addCost_reads at hcost
    simp only [List.mem_append, List.mem_flatMap, List.mem_range, List.mem_cons,
      List.mem_singleton, List.not_mem_nil, or_false] at hcost
    rcases hcost with ⟨i, hi, rfl | rfl⟩ | ⟨i, hi, rfl | rfl⟩ <;>
      simp [RowRead.in_range] <;> omega
  · subst hextract
    simp [RowRead.in_range]
    omega

/-- Claim C25: for every horizon `N >= 1` every row index read by
`addConstraints`, by `addCost` and by the first-step extraction lies within the
declared dimensions (state rows `0 .. N`, control, slack and reference rows
`0 .. N-1`), so the construction succeeds; for the horizon 0 it fails, at the
step-0 rate constraint, which reads control row 0 of a matrix without rows. -/
theorem construct_fails_only_without_steps (N : Nat) (hN : 1 ≤ N) :
    (∀ rd ∈ construction_reads N, rd.in_range N = true) ∧
    MPCController.construct N = Except.ok () ∧
    (∀ M : Nat, M ≤ 0 → MPCController.construct M = Except.error (RowRead.control 0)) ∧
    (Constraint.acc_rate_first ∈ addConstraints 0 ∧
      RowRead.control 0 ∈ Constraint.acc_rate_first.reads ∧
      (RowRead.control 0).in_range 0 = false) := by
  have hall := construction_reads_in_range N hN
  refine ⟨hall, ?_, ?_, ?_, ?_, rfl⟩
  · unfold MPCController.construct
    have hnone : (construction_reads N).find? (fun rd => !rd.in_range N) = none := by
      rw [List.find?_eq_none]
      intro rd hrd
      simp [hall rd hrd]
    rw [hnone]
  · intro M hM
    have h0 : M = 0 := by omega
    subst h0
    rfl
  · rw [mem_addConstraints]
    exact Or.inr (Or.inr (Or.inl (Or.inr (Or.inr (Or.inl rfl)))))
  · simp [Constraint.reads, Constraint.state_rows, Constraint.control_rows,
      Constraint.slack_rows]

/-- Claim C25, witness: the horizon 10 of the sample coefficients. -/
theorem construct_fails_only_without_steps_witness :
    1 ≤ 10 ∧
    ((∀ rd ∈ construction_reads 10, rd.in_range 10 = true) ∧
    MPCController.construct 10 = Except.ok () ∧
    (∀ M : Nat, M ≤ 0 → MPCController.construct M = Except.error (RowRead.control 0)) ∧
    (Constraint.acc_rate_first ∈ addConstraints 0 ∧
      RowRead.control 0 ∈ Constraint.acc_rate_first.reads ∧
      (RowRead.control 0).in_range 0 = false)) :=
  ⟨by decide, construct_fails_only_without_steps 10 (by decide)⟩

end VoxNav
